import Mathlib

/-!
A shallow embedding of the `homunculus` surface-builder library.

The repository contains two generations of the same algorithms:

* the `model.rs` generation (`Model`, wired up by `homunculus/src/lib.rs`),
  embedded below in namespace `MD`;
* the newer `husk.rs` + `ring.rs` generation (`Husk`), embedded in
  namespace `HK`;
* the binary glTF exporter (`homunculus/src/gltf.rs`), namespace `GLB`;
* the two mesh vertex-splitting passes (`homunculus/src/mesh.rs` and
  `src/mesh.rs`), namespaces `MH` and `MS`.

Scalar model: the Rust code computes with `f32`.  Every field operation the
embedded control flow performs (add, sub, mul, div, compare) is embedded
exactly over unreduced integer fractions (`Sc`).  The transcendental
functions (`acos` in `angle_between`, `sqrt` in `length`/`normalize`,
`sin`/`cos` in the rotation constructors, the constant `π`, and the
`f32 → u16` degree conversion) cannot be modelled exactly; they are
abstracted into a `Geom` parameter, and every theorem below holds for an
arbitrary `Geom` instance, i.e. regardless of the values those functions
return.  None of the verified properties (face counts, error behaviour,
map lifecycle) depends on them.
-/

namespace Hom

/-- Exact stand-in for `f32`: an unreduced fraction `n / d` of integers.
`f32` division by zero does not panic (it yields `inf`/`NaN`); here it
yields a fraction with denominator `0`, whose downstream value is never
inspected by any verified property. -/
structure Sc where
  n : Int
  d : Int
deriving DecidableEq, Repr

instance : OfNat Sc m := ⟨⟨(m : Int), 1⟩⟩

def Sc.ofNat (m : Nat) : Sc := ⟨(m : Int), 1⟩

def Sc.add (a b : Sc) : Sc := ⟨a.n * b.d + b.n * a.d, a.d * b.d⟩

def Sc.sub (a b : Sc) : Sc := ⟨a.n * b.d - b.n * a.d, a.d * b.d⟩

def Sc.mul (a b : Sc) : Sc := ⟨a.n * b.n, a.d * b.d⟩

def Sc.div (a b : Sc) : Sc := ⟨a.n * b.d, a.d * b.n⟩

def Sc.neg (a : Sc) : Sc := ⟨-a.n, a.d⟩

instance : Add Sc := ⟨Sc.add⟩

instance : Sub Sc := ⟨Sc.sub⟩

instance : Mul Sc := ⟨Sc.mul⟩

instance : Div Sc := ⟨Sc.div⟩

instance : Neg Sc := ⟨Sc.neg⟩

/-- Comparison `a < b` on fractions (sign-correct for nonzero
denominators; junk for denominator 0, like `NaN` comparisons). -/
def Sc.ltb (a b : Sc) : Bool :=
  if 0 < a.d * b.d then decide (a.n * b.d < b.n * a.d)
  else decide (b.n * a.d < a.n * b.d)

/-- The Rust comparison `x != 0.0` is `¬ isZero` for fractions with a
nonzero denominator. -/
def Sc.isZero (a : Sc) : Bool := a.n = 0

/-- The constant `f32::MAX` = (2^24 - 1) · 2^104. -/
def scF32Max : Sc := ⟨((2 : Int) ^ 24 - 1) * 2 ^ 104, 1⟩

/-- glam `Vec3` with exact scalars. -/
structure V3 where
  x : Sc
  y : Sc
  z : Sc
deriving DecidableEq, Repr

def V3.zero : V3 := ⟨0, 0, 0⟩

def V3.add (a b : V3) : V3 := ⟨a.x + b.x, a.y + b.y, a.z + b.z⟩

def V3.sub (a b : V3) : V3 := ⟨a.x - b.x, a.y - b.y, a.z - b.z⟩

def V3.neg (a : V3) : V3 := ⟨-a.x, -a.y, -a.z⟩

def V3.smul (s : Sc) (a : V3) : V3 := ⟨s * a.x, s * a.y, s * a.z⟩

def V3.divS (a : V3) (s : Sc) : V3 := ⟨a.x / s, a.y / s, a.z / s⟩

def V3.cross (a b : V3) : V3 :=
  ⟨a.y * b.z - a.z * b.y, a.z * b.x - a.x * b.z, a.x * b.y - a.y * b.x⟩

def V3.dot (a b : V3) : Sc := a.x * b.x + a.y * b.y + a.z * b.z

/-- glam `Mat3A`, column major: columns `x_axis`, `y_axis`, `z_axis`. -/
structure Mat3 where
  cx : V3
  cy : V3
  cz : V3
deriving DecidableEq, Repr

def Mat3.id : Mat3 := ⟨⟨1, 0, 0⟩, ⟨0, 1, 0⟩, ⟨0, 0, 1⟩⟩

def Mat3.mulVec (m : Mat3) (v : V3) : V3 :=
  ((m.cx.smul v.x).add (m.cy.smul v.y)).add (m.cz.smul v.z)

def Mat3.mul (a b : Mat3) : Mat3 :=
  ⟨a.mulVec b.cx, a.mulVec b.cy, a.mulVec b.cz⟩

def Mat3.det (m : Mat3) : Sc := m.cx.dot (m.cy.cross m.cz)

/-- glam `Mat3A::inverse`: adjugate over determinant (junk when the
determinant is 0, as with `f32`). -/
def Mat3.inv (m : Mat3) : Mat3 :=
  let d := m.det
  let r0 := (m.cy.cross m.cz).divS d
  let r1 := (m.cz.cross m.cx).divS d
  let r2 := (m.cx.cross m.cy).divS d
  ⟨⟨r0.x, r1.x, r2.x⟩, ⟨r0.y, r1.y, r2.y⟩, ⟨r0.z, r1.z, r2.z⟩⟩

/-- glam `Affine3A`: 3×3 matrix plus translation. -/
structure Affine where
  m : Mat3
  t : V3
deriving DecidableEq, Repr

def Affine.id : Affine := ⟨Mat3.id, V3.zero⟩

def Affine.fromTranslation (t : V3) : Affine := ⟨Mat3.id, t⟩

/-- glam `Affine3A::transform_point3`: `matrix3 * p + translation`. -/
def Affine.transformPoint3 (a : Affine) (p : V3) : V3 :=
  (a.m.mulVec p).add a.t

/-- glam `Affine3A` multiplication (composition). -/
def Affine.comp (a b : Affine) : Affine :=
  ⟨a.m.mul b.m, (a.m.mulVec b.t).add a.t⟩

/-- glam `Affine3A::inverse`. -/
def Affine.inverse (a : Affine) : Affine :=
  let mi := a.m.inv
  ⟨mi, (mi.mulVec a.t).neg⟩

/-- The transcendental `f32` operations used by the code, abstracted.
Every theorem below is proved for an arbitrary `Geom`, so it holds no
matter what values the floating-point library returns for them. -/
structure Geom where
  /-- `std::f32::consts::PI` -/
  pi : Sc
  /-- `Degrees::from(angle: f32)`: `angle.to_degrees().rem_euclid(360.0).round() as u16` -/
  degFrom : Sc → Nat
  /-- `Vec3::angle_between` -/
  angleBetween : V3 → V3 → Sc
  /-- `Vec2::angle_between` -/
  angleBetween2 : Sc × Sc → Sc × Sc → Sc
  /-- `Vec3::normalize` -/
  normalize : V3 → V3
  /-- `Vec3::length` -/
  length : V3 → Sc
  /-- `Vec2::length` -/
  length2 : Sc × Sc → Sc
  /-- `Quat::from_rotation_y(angle) *` -/
  rotY : Sc → V3 → V3
  /-- `Mat3A::from_rotation_z` -/
  rotZ : Sc → Mat3
  /-- `Mat3A::from_rotation_x` -/
  rotX : Sc → Mat3

/-- A trivial geometry used to instantiate witnesses. -/
def trivGeom : Geom where
  pi := 0
  degFrom := fun _ => 0
  angleBetween := fun _ _ => 0
  angleBetween2 := fun _ _ => 0
  normalize := fun _ => V3.zero
  length := fun _ => 0
  length2 := fun _ => 0
  rotY := fun _ v => v
  rotZ := fun _ => Mat3.id
  rotX := fun _ => Mat3.id

/-- `Degrees` addition, `ring.rs` line 126 / `model.rs` line 134:
`Degrees(self.0 + rhs.0 % 360)`.  By Rust operator precedence `%` binds
tighter than `+`, so this is `self.0 + (rhs.0 % 360)`.  (The `u16` sum
never approaches `u16::MAX` for degree values, so wrapping is not
modelled.) -/
def degAdd (a b : Nat) : Nat := a + b % 360

/-- Stable insertion of `a` into `l` before the first element `b` with
`le a b`. -/
def insertS (le : α → α → Bool) (a : α) : List α → List α
  | [] => [a]
  | b :: bs => if le a b then a :: b :: bs else b :: insertS le a bs

/-- Stable insertion sort.  Rust `Vec::sort` is a stable sort by `Ord`;
a stable sort's output is uniquely determined by the comparator, so this
models it exactly. -/
def sortS (le : α → α → Bool) : List α → List α
  | [] => []
  | a :: as' => insertS le a (sortS le as')

theorem insertS_perm (le : α → α → Bool) (a : α) (l : List α) :
    (insertS le a l).Perm (a :: l) := by
  induction l with
  | nil => simp [insertS]
  | cons b bs ih =>
    simp only [insertS]
    split
    · exact List.Perm.refl _
    · exact ((ih.cons b).trans (List.Perm.swap a b bs))

theorem sortS_perm (le : α → α → Bool) (l : List α) :
    (sortS le l).Perm l := by
  induction l with
  | nil => simp [sortS]
  | cons a as' ih =>
    exact (insertS_perm le a (sortS le as')).trans (ih.cons a)

/-- Point type (`husk.rs` lines 14-21 / `model.rs` lines 34-41). -/
inductive Pt where
  | vertex (vid : Nat)
  | branch (label : String)
deriving DecidableEq, Repr

/-- A point on the surface (`husk.rs` lines 24-34 / `model.rs` lines
44-54): degrees around the ring first (for the derived `Ord`), then the
ring id, then the point type. -/
structure Point where
  orderDeg : Nat
  ringId : Nat
  ptType : Pt
deriving DecidableEq, Repr

/-- Lexicographic byte order on strings (Rust `String: Ord`; UTF-8 byte
order coincides with scalar-value order). -/
def strLe (a b : String) : Bool :=
  charsLe a.data b.data
where
  charsLe : List Char → List Char → Bool
    | [], _ => true
    | _ :: _, [] => false
    | c :: cs, d :: ds =>
      if c < d then true else if d < c then false else charsLe cs ds

/-- Derived `Ord` on `Pt`: `Vertex` before `Branch`, payloads compared
within a variant. -/
def ptTyLe : Pt → Pt → Bool
  | .vertex i, .vertex j => i ≤ j
  | .vertex _, .branch _ => true
  | .branch _, .vertex _ => false
  | .branch s, .branch t => strLe s t

/-- Derived lexicographic `Ord` on `Point`. -/
def ptLe (p q : Point) : Bool :=
  if p.orderDeg < q.orderDeg then true
  else if q.orderDeg < p.orderDeg then false
  else if p.ringId < q.ringId then true
  else if q.ringId < p.ringId then false
  else ptTyLe p.ptType q.ptType

/-- `Vec::sort` on points (ascending by the derived `Ord`). -/
def sortPts (l : List Point) : List Point := sortS ptLe l

theorem sortPts_perm (l : List Point) : (sortPts l).Perm l :=
  sortS_perm ptLe l

/-- The `HashMap<String, Branch>` of either generation, as an association
list (keys unique by construction: `insert` is only used on absent keys). -/
def bmGet : List (String × β) → String → Option β
  | [], _ => none
  | e :: m, lbl => if e.1 = lbl then some e.2 else bmGet m lbl

def bmContains (m : List (String × β)) (lbl : String) : Bool :=
  (bmGet m lbl).isSome

/-- `HashMap::insert` for a key known to be absent. -/
def bmInsert (m : List (String × β)) (lbl : String) (b : β) :
    List (String × β) :=
  m ++ [(lbl, b)]

/-- Mutation through `HashMap::get_mut`: update the entry at `lbl`. -/
def bmUpdate : List (String × β) → String → (β → β) → List (String × β)
  | [], _, _ => []
  | e :: m, lbl, f =>
    if e.1 = lbl then (e.1, f e.2) :: m else e :: bmUpdate m lbl f

/-- `HashMap::remove`. -/
def bmRemove : List (String × β) → String → List (String × β)
  | [], _ => []
  | e :: m, lbl => if e.1 = lbl then bmRemove m lbl else e :: bmRemove m lbl

theorem bmGet_remove (m : List (String × β)) (lbl : String) :
    bmGet (bmRemove m lbl) lbl = none := by
  induction m with
  | nil => rfl
  | cons e m ih =>
    by_cases h : e.1 = lbl
    · simpa [bmRemove, h] using ih
    · simpa [bmRemove, bmGet, h] using ih

theorem bmGet_update_ne (m : List (String × β)) (lbl lbl2 : String)
    (f : β → β) (h : lbl2 ≠ lbl) :
    bmGet (bmUpdate m lbl2 f) lbl = bmGet m lbl := by
  induction m with
  | nil => rfl
  | cons e m ih =>
    by_cases he : e.1 = lbl2
    · have hne : e.1 ≠ lbl := by simpa [he] using h
      simp [bmUpdate, bmGet, he, hne, h]
    · by_cases hl : e.1 = lbl
      · have : ¬ lbl = lbl2 := fun hh => h (hh ▸ rfl)
        simp [bmUpdate, bmGet, he, hl, this, hl ▸ he]
      · simpa [bmUpdate, bmGet, he, hl] using ih

theorem bmGet_update_isSome (m : List (String × β)) (lbl : String)
    (f : β → β) :
    (bmGet (bmUpdate m lbl f) lbl).isSome = (bmGet m lbl).isSome := by
  induction m with
  | nil => rfl
  | cons e m ih =>
    by_cases he : e.1 = lbl
    · simp [bmUpdate, bmGet, he]
    · simpa [bmUpdate, bmGet, he] using ih

end Hom

namespace Hom

/-- `Vec::swap` (total; all call sites are in range). -/
def swapL (l : List α) (i j : Nat) : List α :=
  match l.get? i, l.get? j with
  | some a, some b => (l.set i b).set j a
  | _, _ => l

/-- Rust `Vec::dedup`: remove consecutive duplicates. -/
def dedupAdj : List Nat → List Nat
  | [] => []
  | [a] => [a]
  | a :: b :: rest =>
    if a = b then dedupAdj (b :: rest) else a :: dedupAdj (b :: rest)

/-- The error type (`error.rs`), restricted to the variants the embedded
code constructs, plus a variant for Rust panics (integer division by
zero, out-of-range indexing). -/
inductive Err where
  | invalidRing (id : Nat)
  | invalidBranches (msg : String)
  | unknownBranchLabel (lbl : String)
  | panicMsg (msg : String)
deriving DecidableEq, Repr

end Hom

/-!
## `MD`: the `Model` generation (`homunculus/src/model.rs`)
-/

namespace MD

open Hom

/-- `Smoothing` as used by `model.rs` (cf. the `pyramid` example:
`Smoothing::Sharp` / `Smoothing::Smooth`). -/
inductive Smoothing where
  | sharp
  | smooth
deriving DecidableEq, Repr

/-- `model.rs` lines 24-31: `RingPoint`. -/
structure RingPoint where
  distance : Sc
  branch : Option String
deriving DecidableEq, Repr

/-- `model.rs` lines 59-75: `Ring`. -/
structure Ring where
  id : Nat
  axis : Option V3
  points : List RingPoint
  scale : Option Sc
  smoothing : Option Smoothing
deriving DecidableEq, Repr

/-- `model.rs` lines 81-89: `Branch` (edges as `(v0, v1)` pairs). -/
structure Branch where
  internal : List V3
  edges : List (Nat × Nat)
deriving DecidableEq, Repr

/-- `mesh.rs` `Face`, as constructed by `model.rs`
(`Face::new([v0, v1, v2], smoothing)`).  The `debug_assert_ne!` calls in
`Face::new` are disabled in release builds and are not part of the
embedded semantics. -/
structure Face where
  v0 : Nat
  v1 : Nat
  v2 : Nat
  smoothing : Smoothing
deriving DecidableEq, Repr

/-- `mesh.rs` `MeshBuilder`: vertex positions and faces. -/
structure Builder where
  pos : List V3
  faces : List Face
deriving DecidableEq, Repr

/-- `model.rs` lines 103-121: the `Model` state. -/
structure Model where
  builder : Builder
  ringId : Nat
  xform : Affine
  ring : Option Ring
  points : List Point
  branches : List (String × Branch)
deriving DecidableEq, Repr

/-- `Model::new`. -/
def Model.new : Model := ⟨⟨[], []⟩, 0, Affine.id, none, [], []⟩

/-- `MeshBuilder::vertex`: `self.pos[idx]` (total here; all call sites
index in range). -/
def Builder.vertex (b : Builder) (idx : Nat) : V3 :=
  b.pos.getD idx V3.zero

/-- `MeshBuilder::push_vtx`. -/
def Builder.pushVtx (b : Builder) (p : V3) : Nat × Builder :=
  (b.pos.length, { b with pos := b.pos ++ [p] })

/-- `MeshBuilder::push_face`: panics (`"Invalid vertex"`) when an index
is not below the current vertex count. -/
def Builder.pushFace (b : Builder) (f : Face) : Except Err Builder :=
  let idx := b.pos.length
  if f.v0 ≥ idx ∨ f.v1 ≥ idx ∨ f.v2 ≥ idx then
    .error (.panicMsg "Invalid vertex")
  else
    .ok { b with faces := b.faces ++ [f] }

/-- `model.rs` lines 202-204: `axis_or_default`. -/
def Ring.axisOrDefault (r : Ring) : V3 :=
  r.axis.getD ⟨0, 1, 0⟩

/-- `model.rs` lines 207-209: `scale_or_default`. -/
def Ring.scaleOrDefault (r : Ring) : Sc :=
  r.scale.getD 1

/-- `model.rs` lines 212-214: `smoothing_or_default`. -/
def Ring.smoothingOrDefault (r : Ring) : Smoothing :=
  r.smoothing.getD .smooth

/-- `model.rs` lines 217-231: `Ring::update_with` — copy each set field
of `ring` over the corresponding field of `self`. -/
def Ring.updateWith (self other : Ring) : Ring :=
  let s := if other.axis.isSome then { self with axis := other.axis } else self
  let s := if ¬ other.points.isEmpty then { s with points := other.points } else s
  let s := if other.scale.isSome then { s with scale := other.scale } else s
  if other.smoothing.isSome then { s with smoothing := other.smoothing } else s

/-- `model.rs` lines 171-181: `Ring::with_branch` (`RingPoint::default()`
has distance `1.0` and no label). -/
def Ring.withBranch (id : Nat) (axis : V3) (pts : Nat) : Ring :=
  ⟨id, some axis, List.replicate pts ⟨1, none⟩, none, none⟩

/-- `model.rs` lines 251-254: `half_step` is `180 / self.points.len()` in
integer arithmetic; Rust integer division by zero panics. -/
def Ring.halfStep (r : Ring) : Except Err Nat :=
  if r.points.length = 0 then .error (.panicMsg "attempt to divide by zero")
  else .ok (180 / r.points.length)

/-- `model.rs` lines 257-259: spoke angle `2π·i/N` (an `f32` division:
division by zero yields a non-finite value, no panic). -/
def Ring.angle (g : Geom) (r : Ring) (i : Nat) : Sc :=
  2 * g.pi * Sc.ofNat i / Sc.ofNat r.points.length

/-- `model.rs` lines 262-265: `transform_translate`. -/
def Ring.transformTranslate (r : Ring) (x : Affine) : Affine :=
  { x with t := x.t.add (x.m.mulVec r.axisOrDefault) }

/-- `model.rs` lines 268-289: `transform_rotate` (mutates both the ring's
axis and the model transform). -/
def Ring.transformRotate (g : Geom) (r : Ring) (x : Affine) : Ring × Affine :=
  match r.axis with
  | none => (r, x)
  | some axis =>
    let length := g.length axis
    let axis := g.normalize axis
    let x :=
      if ¬ axis.x.isZero then
        let up : Sc × Sc := (0, 1)
        let proj : Sc × Sc := (axis.x, axis.y)
        let angle := (g.angleBetween2 up proj) * (g.length2 proj)
        { x with m := x.m.mul (g.rotZ angle) }
      else x
    let x :=
      if ¬ axis.z.isZero then
        let up : Sc × Sc := (1, 0)
        let proj : Sc × Sc := (axis.y, axis.z)
        let angle := (g.angleBetween2 up proj) * (g.length2 proj)
        { x with m := x.m.mul (g.rotX angle) }
      else x
    ({ r with axis := some ⟨0, length, 0⟩ }, x)

/-- `model.rs` lines 302-317: `Branch::edge_vids` — reorder the edge list
into a chain by repeatedly swapping forward the edge whose start vertex
matches the current end vertex, then keep the start vertices.  Indexing
`edges[0]` panics when the edge list is empty. -/
def Branch.edgeVids (br : Branch) (edge : Nat) : Except Err (List Nat) :=
  let edges := br.edges
  let edges := if edge > 0 then swapL edges 0 edge else edges
  if edges.isEmpty then .error (.panicMsg "index out of bounds")
  else
    let len := edges.length
    let step := fun (acc : List (Nat × Nat) × Nat) (i : Nat) =>
      let es := acc.1
      let vid := acc.2
      let es := (List.range' (i + 1) (len - (i + 1))).foldl
        (fun es2 j => if (es2.getD j (0, 0)).1 = vid then swapL es2 i j else es2)
        es
      (es, (es.getD i (0, 0)).2)
    let res := ((List.range' 1 (len - 1)).foldl step
      (edges, (edges.getD 0 (0, 0)).2)).1
    .ok (res.map (·.1))

/-- `model.rs` lines 320-323: `Branch::center` — fold-sum of the internal
points divided by their count (an `f32` division: for an empty list this
is `0.0 / 0.0 = NaN` componentwise, not an error). -/
def Branch.center (br : Branch) : V3 :=
  (br.internal.foldl V3.add V3.zero).divS (Sc.ofNat br.internal.length)

/-- `model.rs` lines 326-335: `edge_vertex_count` — collect both ends of
every edge, sort, `Vec::dedup`, count. -/
def Branch.edgeVertexCount (br : Branch) : Nat :=
  (dedupAdj (sortS Nat.ble (br.edges.flatMap (fun e => [e.1, e.2])))).length

/-- `model.rs` lines 363-370: `add_branch_vertex`. -/
def addBranchVertex (m : Model) (lbl : String) (pos : V3) : Model :=
  let m :=
    if ¬ bmContains m.branches lbl then
      { m with branches := bmInsert m.branches lbl ⟨[], []⟩ }
    else m
  let br2 :=
    bmUpdate m.branches lbl (fun b => { b with internal := b.internal ++ [pos] })
  { m with branches := br2 }

/-- `model.rs` lines 373-380: `push_pt`. -/
def pushPt (m : Model) (orderDeg : Nat) (ptType : Pt) : Model :=
  { m with points := m.points ++ [⟨orderDeg, m.ringId, ptType⟩] }

/-- `model.rs` lines 383-402: `add_ring_points`. -/
def addRingPoints (g : Geom) (m : Model) (r : Ring) : Model :=
  (r.points.foldl
    (fun (acc : Model × Nat) ptd =>
      let m := acc.1
      let i := acc.2
      let angle := r.angle g i
      let orderDeg := g.degFrom angle
      let pos := g.rotY angle ⟨ptd.distance * r.scaleOrDefault, 0, 0⟩
      let pos := m.xform.transformPoint3 pos
      match ptd.branch with
      | none =>
        let (vid, b) := m.builder.pushVtx pos
        (pushPt { m with builder := b } orderDeg (.vertex vid), i + 1)
      | some lbl =>
        (pushPt (addBranchVertex m lbl pos) orderDeg (.branch lbl), i + 1))
    (m, 0)).1

/-- `model.rs` lines 610-617 (inside `add_face`): record an edge at the
base of branch `b`; `UnknownBranchLabel` when the label is absent. -/
def addFaceEdge (m : Model) (lbl : String) (v0 v1 : Nat) : Except Err Model :=
  match bmGet m.branches lbl with
  | none => .error (.unknownBranchLabel lbl)
  | some _ =>
    let br2 :=
      bmUpdate m.branches lbl (fun b => { b with edges := b.edges ++ [(v0, v1)] })
    .ok { m with branches := br2 }

/-- `model.rs` lines 619-630 (inside `add_face`): one vertex and two
branch points — the labels must match; no edge is added. -/
def addFaceTwo (m : Model) (b0 b1 : String) : Except Err Model :=
  if b0 ≠ b1 then .error (.invalidBranches (b0 ++ " != " ++ b1))
  else .ok m

/-- `model.rs` lines 631-644 (inside `add_face`): three branch points —
all labels must match pairwise. -/
def addFaceThree (m : Model) (b0 b1 b2 : String) : Except Err Model :=
  if b0 ≠ b1 then .error (.invalidBranches (b0 ++ " != " ++ b1))
  else if b0 ≠ b2 then .error (.invalidBranches (b0 ++ " != " ++ b2))
  else .ok m

/-- `model.rs` lines 600-647: `add_face`, classifying the three corners
by `Vertex` vs `Branch` exactly as the Rust `match`. -/
def addFace (m : Model) (p0 p1 p2 : Point) (smo : Smoothing) :
    Except Err Model :=
  match p0.ptType, p1.ptType, p2.ptType with
  | .vertex v0, .vertex v1, .vertex v2 => do
    let b ← m.builder.pushFace ⟨v0, v1, v2, smo⟩
    .ok { m with builder := b }
  | .branch lbl, .vertex v0, .vertex v1 => addFaceEdge m lbl v0 v1
  | .vertex v1, .branch lbl, .vertex v0 => addFaceEdge m lbl v0 v1
  | .vertex v0, .vertex v1, .branch lbl => addFaceEdge m lbl v0 v1
  | .vertex _, .branch b0, .branch b1 => addFaceTwo m b0 b1
  | .branch b0, .vertex _, .branch b1 => addFaceTwo m b0 b1
  | .branch b0, .branch b1, .vertex _ => addFaceTwo m b0 b1
  | .branch b0, .branch b1, .branch b2 => addFaceThree m b0 b1 b2

/-- `model.rs` lines 555-568: `ring_points` — the points of one ring,
orders offset by the other ring's half step, sorted and reversed
(descending). -/
def ringPoints (m : Model) (r : Ring) (hsOther : Nat) : List Point :=
  let pts := (m.points.filter (fun p => p.ringId = r.id)).map
    (fun p => { p with orderDeg := degAdd p.orderDeg hsOther })
  (sortPts pts).reverse

/-- The band triangle-strip loop of `model.rs` lines 586-593.
`Vec::pop` consumes from the back, so the loop walks the reversed band
list front to back. -/
def bandLoop (r0id : Nat) (smo : Smoothing) :
    Model → Point → Point → List Point → Except Err (Model × Point × Point)
  | m, pt1, pt0, [] => .ok (m, pt1, pt0)
  | m, pt1, pt0, pt :: rest => do
    let m2 ← addFace m pt1 pt0 pt smo
    if pt.ringId = r0id then bandLoop r0id smo m2 pt1 pt rest
    else bandLoop r0id smo m2 pt pt0 rest

/-- `model.rs` lines 571-597: `make_band`.  Both closing faces are
emitted unconditionally. -/
def makeBand (m : Model) (ring0 ring1 : Ring) : Except Err Model := do
  if ring0.id = ring1.id then .error (.invalidRing ring0.id)
  else
    let hs1 ← ring1.halfStep
    let pts0 := ringPoints m ring0 hs1
    let hs0 ← ring0.halfStep
    let pts1 := ringPoints m ring1 hs0
    let first0 ← match pts0.getLast? with
      | none => .error (.invalidRing ring0.id)
      | some p => .ok p
    let first1 ← match pts1.getLast? with
      | none => .error (.invalidRing ring1.id)
      | some p => .ok p
    let band := (sortPts (pts0.dropLast ++ pts1.dropLast)).reverse
    let smo := ring0.smoothingOrDefault
    let (m2, pt1, pt0) ← bandLoop ring0.id smo m first1 first0 band.reverse
    let m3 ← addFace m2 pt1 pt0 first1 smo
    addFace m3 first0 first1 pt0 smo

/-- The cap fan loop of `model.rs` lines 445-448. -/
def capLoop (smo : Smoothing) (center : Point) :
    Model → Point → List Point → Except Err (Model × Point)
  | m, prev, [] => .ok (m, prev)
  | m, prev, pt :: rest => do
    let m2 ← addFace m pt prev center smo
    capLoop smo center m2 pt rest

/-- `model.rs` lines 435-452: `cap_ring`.  Note there is no emptiness
check after popping the last point: even a single-point ring gets a hub
vertex and a (degenerate) final face. -/
def capRing (m : Model) (ring : Ring) : Except Err Model := do
  let pts := ringPoints m ring 0
  let last ← match pts.getLast? with
    | none => .error (.invalidRing ring.id)
    | some p => .ok p
  let pts := pts.dropLast
  let pos := m.xform.transformPoint3 V3.zero
  let (vid, b) := m.builder.pushVtx pos
  let m := { m with builder := b }
  let ring := { ring with id := m.ringId }
  let m := pushPt m 0 (.vertex vid)
  let center := (m.points.getLast?).getD ⟨0, 0, .vertex 0⟩
  let (m, prev) ← capLoop ring.smoothingOrDefault center m last pts
  let m ← addFace m last prev center ring.smoothingOrDefault
  .ok { m with ringId := m.ringId + 1 }

/-- `model.rs` lines 427-432: `cap` — take the current ring and cap it;
no-op when there is none. -/
def cap (m : Model) : Except Err Model :=
  match m.ring with
  | some ring => capRing { m with ring := none } ring
  | none => .ok m

/-- `model.rs` lines 483-492: `branch_center_vertices` — look the branch
up (`get`, not `remove`) and return its center and distinct edge-vertex
count. -/
def branchCenterVertices (m : Model) (lbl : String) : Except Err (V3 × Nat) :=
  match bmGet m.branches lbl with
  | some br => .ok (br.center, br.edgeVertexCount)
  | none => .error (.unknownBranchLabel lbl)

/-- `model.rs` lines 495-509: `branch_axis`. -/
def branchAxis (g : Geom) (m : Model) (lbl : String) : V3 :=
  let center := m.xform.transformPoint3 V3.zero
  match bmGet m.branches lbl with
  | some br =>
    g.normalize (br.edges.foldl
      (fun norm e =>
        norm.add (((m.builder.vertex e.1).sub center).cross
          ((m.builder.vertex e.2).sub center)))
      V3.zero)
  | none => ⟨0, 1, 0⟩

/-- `model.rs` lines 520-552: `edge_angles` — pick the edge vertex
closest to 0°, chain the edges, accumulate signed angle deltas. -/
def edgeAngles (g : Geom) (m : Model) (br : Branch) :
    Except Err (List (Nat × Nat)) := do
  let inverse := m.xform.inverse
  let zeroDeg : V3 := ⟨1, 0, 0⟩
  let scan := fun (acc : Nat × Sc × Nat) (ed : Nat × Nat) =>
    let i := acc.1
    let angle := acc.2.1
    let edge := acc.2.2
    let pos := inverse.transformPoint3 (m.builder.vertex ed.1)
    let pos : V3 := ⟨pos.x, 0, pos.z⟩
    let ang := g.angleBetween zeroDeg pos
    if ang.ltb angle then (i + 1, ang, i) else (i + 1, angle, edge)
  let edge := (br.edges.foldl scan (0, scF32Max, 0)).2.2
  let vids ← br.edgeVids edge
  let step := fun (acc : Sc × V3 × List (Nat × Nat)) (vid : Nat) =>
    let angle := acc.1
    let ppos := acc.2.1
    let out := acc.2.2
    let pos := inverse.transformPoint3 (m.builder.vertex vid)
    let pos : V3 := ⟨pos.x, 0, pos.z⟩
    let ang := g.angleBetween ppos pos
    let angle := angle + ang
    let orderDeg := g.degFrom angle
    (angle, pos, out ++ [(orderDeg, vid)])
  .ok ((vids.foldl step (0, zeroDeg, [])).2.2)

/-- `model.rs` lines 512-517: `branch_angles`. -/
def branchAngles (g : Geom) (m : Model) (lbl : String) :
    Except Err (List (Nat × Nat)) :=
  match bmGet m.branches lbl with
  | some br => edgeAngles g m br
  | none => .ok []

/-- `model.rs` lines 455-480: `branch` — cap the open ring, then look up
(without removing) the named branch and seed a new ring from it. -/
def branch (g : Geom) (m : Model) (lbl : String) (axis : Option V3) :
    Except Err Model := do
  let m ← cap m
  let id := m.ringId
  let cv ← branchCenterVertices m lbl
  let m := { m with xform := Affine.fromTranslation cv.1 }
  let ax := branchAxis g m lbl
  let ring := Ring.withBranch id ax cv.2
  let rx := ring.transformRotate g m.xform
  let ring := rx.1
  let m := { m with xform := rx.2 }
  let rm : Ring × Model :=
    match axis with
    | some a =>
      let ring := { ring with axis := some a }
      let rx2 := ring.transformRotate g m.xform
      (rx2.1, { m with xform := rx2.2 })
    | none => (ring, m)
  let ring := rm.1
  let m := rm.2
  let m := { m with ring := some ring }
  let angles ← branchAngles g m lbl
  let m := angles.foldl (fun m oa => pushPt m oa.1 (.vertex oa.2)) m
  .ok { m with ringId := m.ringId + 1 }

/-- `model.rs` lines 405-424: `ring` — merge with the previous ring,
advance the transform, instantiate the points, and band against the
previous ring. -/
def ring (g : Geom) (m : Model) (r : Ring) : Except Err Model := do
  let pring := m.ring
  let m := { m with ring := none }
  let rm : Ring × Model :=
    match pring with
    | some pr =>
      let r2 := pr.updateWith r
      let x := r2.transformTranslate m.xform
      let rx := r2.transformRotate g x
      (rx.1, { m with xform := rx.2 })
    | none => (r, m)
  let r2 := { rm.1 with id := rm.2.ringId }
  let m := rm.2
  let m := { m with ring := some r2 }
  let m := addRingPoints g m r2
  let m ← match pring with
    | some pr => makeBand m pr r2
    | none => .ok m
  .ok { m with ringId := m.ringId + 1 }

end MD

/-!
## `HK`: the `Husk` generation (`homunculus/src/husk.rs` + `ring.rs`)
-/

namespace HK

open Hom

/-- `ring.rs` lines 37-47: `Shading`. -/
inductive Shading where
  | flat
  | smooth
  | ringed
deriving DecidableEq, Repr

/-- `ring.rs` lines 28-34: `Spoke`. -/
structure Spoke where
  distance : Sc
  label : Option String
deriving DecidableEq, Repr

/-- `ring.rs` lines 50-53: `EMPTY_RING`, the substitute spoke list used
when iterating a ring whose `spokes` is empty. -/
def emptyRing : List Spoke := [⟨0, none⟩]

/-- `ring.rs` lines 55-73: a pre-resolved point stored on a ring (used
only for branch rings in this generation). -/
inductive RPt where
  | vertex (vid : Nat)
  | branchPt (label : String) (pos : V3)
deriving DecidableEq, Repr

structure RPoint where
  pt : RPt
  order : Nat
deriving DecidableEq, Repr

/-- `ring.rs` lines 80-99: `Ring`.  (`husk.rs` additionally assigns a
ring id — `ring.id = self.ring_id` — so the embedding carries an `id`
field.) -/
structure Ring where
  spacing : Option Sc
  scale : Option Sc
  shading : Option Shading
  spokes : List Spoke
  xform : Affine
  points : List RPoint
  id : Nat
deriving DecidableEq, Repr

/-- `Ring::default()`. -/
def Ring.default : Ring := ⟨none, none, none, [], Affine.id, [], 0⟩

/-- `ring.rs` lines 106-113: `Branch`. -/
structure Branch where
  internal : List V3
  edges : List (Nat × Nat)
deriving DecidableEq, Repr

/-- `mesh.rs` `Face` as constructed by `husk.rs`
(`Face::new([v0, v1, v2], smoothing)` with the ring's shading). -/
structure Face where
  v0 : Nat
  v1 : Nat
  v2 : Nat
  shading : Shading
deriving DecidableEq, Repr

structure Builder where
  pos : List V3
  faces : List Face
deriving DecidableEq, Repr

def Builder.vertex (b : Builder) (idx : Nat) : V3 :=
  b.pos.getD idx V3.zero

def Builder.pushVtx (b : Builder) (p : V3) : Nat × Builder :=
  (b.pos.length, { b with pos := b.pos ++ [p] })

def Builder.pushFace (b : Builder) (f : Face) : Except Err Builder :=
  let idx := b.pos.length
  if f.v0 ≥ idx ∨ f.v1 ≥ idx ∨ f.v2 ≥ idx then
    .error (.panicMsg "Invalid vertex")
  else
    .ok { b with faces := b.faces ++ [f] }

/-- `husk.rs` lines 52-67: the `Husk` state. -/
structure Husk where
  builder : Builder
  ringId : Nat
  ring : Option Ring
  points : List Point
  branches : List (String × Branch)
deriving DecidableEq, Repr

/-- `Husk::new` (`husk.rs` lines 77-85). -/
def Husk.new : Husk := ⟨⟨[], []⟩, 0, none, [], []⟩

/-- `ring.rs` lines 293-299: `spokes()` — iterate the spokes,
substituting `EMPTY_RING` when none were declared.  (`husk.rs` line 109
iterates exactly this substituted sequence when instantiating ring
points.) -/
def Ring.spokesIter (r : Ring) : List Spoke :=
  if r.spokes.isEmpty then emptyRing else r.spokes

/-- `ring.rs` lines 302-305: `half_step` is `180 / self.spokes.len()` on
the raw stored `spokes` list (no `EMPTY_RING` substitution); Rust integer
division by zero panics. -/
def Ring.halfStep (r : Ring) : Except Err Nat :=
  if r.spokes.length = 0 then .error (.panicMsg "attempt to divide by zero")
  else .ok (180 / r.spokes.length)

/-- `ring.rs` lines 308-310: spoke angle `2π·i/N` over the raw `spokes`
length (an `f32` division: no panic on zero). -/
def Ring.angle (g : Geom) (r : Ring) (i : Nat) : Sc :=
  2 * g.pi * Sc.ofNat i / Sc.ofNat r.spokes.length

/-- `ring.rs` lines 254-256: `scale_or_default`. -/
def Ring.scaleOrDefault (r : Ring) : Sc :=
  r.scale.getD 1

/-- `ring.rs` lines 259-261: `shading_or_default`. -/
def Ring.shadingOrDefault (r : Ring) : Shading :=
  r.shading.getD .smooth

/-- `ring.rs` lines 313-317: `transform_translate`. -/
def Ring.transformTranslate (r : Ring) : Ring :=
  let spacing := r.spacing.getD 1
  let axis : V3 := ⟨0, spacing, 0⟩
  { r with xform := { r.xform with t := r.xform.t.add (r.xform.m.mulVec axis) } }

/-- `ring.rs` lines 320-337: `transform_rotate` — records the axis length
as the spacing, then rotates the ring transform. -/
def Ring.transformRotate (g : Geom) (r : Ring) (axis : V3) : Ring :=
  let r := { r with spacing := some (g.length axis) }
  let axis := g.normalize axis
  let r :=
    if ¬ axis.x.isZero then
      let up : Sc × Sc := (0, 1)
      let proj : Sc × Sc := (axis.x, axis.y)
      let angle := (g.angleBetween2 up proj) * (g.length2 proj)
      { r with xform := { r.xform with m := r.xform.m.mul (g.rotZ angle) } }
    else r
  if ¬ axis.z.isZero then
    let up : Sc × Sc := (1, 0)
    let proj : Sc × Sc := (axis.y, axis.z)
    let angle := (g.angleBetween2 up proj) * (g.length2 proj)
    { r with xform := { r.xform with m := r.xform.m.mul (g.rotX angle) } }
  else r

/-- `ring.rs` lines 221-227: the `axis` setter (the finiteness asserts
cannot fire over exact fractions). -/
def Ring.axisSet (g : Geom) (r : Ring) (axis : V3) : Ring :=
  r.transformRotate g axis

/-- `ring.rs` lines 195-212: `with_ring` — merge an incoming ring with
the previous one (`spacing`/`scale`/`shading` prefer the new value when
set, `spokes` prefer the new list when non-empty), compose the
transforms, then translate. -/
def Ring.withRing (self other : Ring) : Ring :=
  let spacing := other.spacing.or self.spacing
  let spokes := if other.spokes.isEmpty then self.spokes else other.spokes
  let r : Ring :=
    { spacing := spacing
      xform := self.xform.comp other.xform
      scale := other.scale.or self.scale
      shading := other.shading.or self.shading
      spokes := spokes
      points := []
      id := 0 }
  r.transformTranslate

/-- `ring.rs` lines 437-440: `Branch::center` (same expression as the
`model.rs` generation). -/
def Branch.center (br : Branch) : V3 :=
  (br.internal.foldl V3.add V3.zero).divS (Sc.ofNat br.internal.length)

/-- `ring.rs` lines 408-416: `Branch::axis`. -/
def Branch.axisCalc (g : Geom) (br : Branch) (builder : Builder)
    (center : V3) : V3 :=
  g.normalize (br.edges.foldl
    (fun norm e =>
      norm.add (((builder.vertex e.1).sub center).cross
        ((builder.vertex e.2).sub center)))
    V3.zero)

/-- `ring.rs` lines 419-434: `Branch::edge_vids` (identical chain
reordering to the `model.rs` generation; `edges[0]` panics when the edge
list is empty). -/
def Branch.edgeVids (br : Branch) (edge : Nat) : Except Err (List Nat) :=
  let edges := br.edges
  let edges := if edge > 0 then swapL edges 0 edge else edges
  if edges.isEmpty then .error (.panicMsg "index out of bounds")
  else
    let len := edges.length
    let step := fun (acc : List (Nat × Nat) × Nat) (i : Nat) =>
      let es := acc.1
      let vid := acc.2
      let es := (List.range' (i + 1) (len - (i + 1))).foldl
        (fun es2 j => if (es2.getD j (0, 0)).1 = vid then swapL es2 i j else es2)
        es
      (es, (es.getD i (0, 0)).2)
    let res := ((List.range' 1 (len - 1)).foldl step
      (edges, (edges.getD 0 (0, 0)).2)).1
    .ok (res.map (·.1))

/-- `ring.rs` lines 448-484: `Branch::edge_angles`. -/
def Branch.edgeAngles (g : Geom) (br : Branch) (ring : Ring)
    (builder : Builder) : Except Err (List (Nat × Nat)) := do
  let inverse := ring.xform.inverse
  let zeroDeg : V3 := ⟨1, 0, 0⟩
  let scan := fun (acc : Nat × Sc × Nat) (ed : Nat × Nat) =>
    let i := acc.1
    let angle := acc.2.1
    let edge := acc.2.2
    let pos := inverse.transformPoint3 (builder.vertex ed.1)
    let pos : V3 := ⟨pos.x, 0, pos.z⟩
    let ang := g.angleBetween zeroDeg pos
    if ang.ltb angle then (i + 1, ang, i) else (i + 1, angle, edge)
  let edge := (br.edges.foldl scan (0, scF32Max, 0)).2.2
  let vids ← br.edgeVids edge
  let step := fun (acc : Sc × V3 × List (Nat × Nat)) (vid : Nat) =>
    let angle := acc.1
    let ppos := acc.2.1
    let out := acc.2.2
    let pos := inverse.transformPoint3 (builder.vertex vid)
    let pos : V3 := ⟨pos.x, 0, pos.z⟩
    let ang := g.angleBetween ppos pos
    let angle := angle + ang
    let orderDeg := g.degFrom angle
    (angle, pos, out ++ [(orderDeg, vid)])
  .ok ((vids.foldl step (0, zeroDeg, [])).2.2)

/-- `ring.rs` lines 172-192: `Ring::with_branch` — seed a ring from a
branch: translate to its center, one default spoke per edge, rotate to
the branch axis, then attach the pre-resolved edge points. -/
def Ring.withBranch (g : Geom) (br : Branch) (builder : Builder) :
    Except Err Ring := do
  let center := br.center
  let axis := br.axisCalc g builder center
  let xform := Affine.fromTranslation center
  let count := br.edges.length
  let r : Ring :=
    { spacing := none
      xform := xform
      scale := none
      shading := none
      spokes := List.replicate count ⟨1, none⟩
      points := []
      id := 0 }
  let r := r.transformRotate g axis
  let angles ← br.edgeAngles g r builder
  .ok { r with points := angles.map (fun oa => ⟨.vertex oa.2, oa.1⟩) }

/-- `husk.rs` lines 88-95: `add_branch_vertex`. -/
def addBranchVertex (h : Husk) (lbl : String) (pos : V3) : Husk :=
  let h :=
    if ¬ bmContains h.branches lbl then
      { h with branches := bmInsert h.branches lbl ⟨[], []⟩ }
    else h
  let br2 :=
    bmUpdate h.branches lbl (fun b => { b with internal := b.internal ++ [pos] })
  { h with branches := br2 }

/-- `husk.rs` lines 98-105: `push_pt`. -/
def pushPt (h : Husk) (orderDeg : Nat) (ptType : Pt) : Husk :=
  { h with points := h.points ++ [⟨orderDeg, h.ringId, ptType⟩] }

/-- `husk.rs` lines 108-127: `add_ring_points` — instantiate every spoke
of the ring (iterating the `EMPTY_RING`-substituted sequence, cf.
`ring.rs` `spokes()`) into either a mesh vertex or a branch-internal
point. -/
def addRingPoints (g : Geom) (h : Husk) (r : Ring) : Husk :=
  (r.spokesIter.foldl
    (fun (acc : Husk × Nat) rpt =>
      let h := acc.1
      let i := acc.2
      let angle := r.angle g i
      let orderDeg := g.degFrom angle
      let pos := g.rotY angle ⟨rpt.distance * r.scaleOrDefault, 0, 0⟩
      let pos := r.xform.transformPoint3 pos
      match rpt.label with
      | none =>
        let (vid, b) := h.builder.pushVtx pos
        (pushPt { h with builder := b } orderDeg (.vertex vid), i + 1)
      | some lbl =>
        (pushPt (addBranchVertex h lbl pos) orderDeg (.branch lbl), i + 1))
    (h, 0)).1

/-- Edge-recording case of `husk.rs` `add_face` (lines 315-323). -/
def addFaceEdge (h : Husk) (lbl : String) (v0 v1 : Nat) : Except Err Husk :=
  match bmGet h.branches lbl with
  | none => .error (.unknownBranchLabel lbl)
  | some _ =>
    let br2 :=
      bmUpdate h.branches lbl (fun b => { b with edges := b.edges ++ [(v0, v1)] })
    .ok { h with branches := br2 }

/-- Two-branch-corner case of `husk.rs` `add_face` (lines 324-335). -/
def addFaceTwo (h : Husk) (b0 b1 : String) : Except Err Husk :=
  if b0 ≠ b1 then .error (.invalidBranches (b0 ++ " != " ++ b1))
  else .ok h

/-- Three-branch-corner case of `husk.rs` `add_face` (lines 336-349). -/
def addFaceThree (h : Husk) (b0 b1 b2 : String) : Except Err Husk :=
  if b0 ≠ b1 then .error (.invalidBranches (b0 ++ " != " ++ b1))
  else if b0 ≠ b2 then .error (.invalidBranches (b0 ++ " != " ++ b2))
  else .ok h

/-- `husk.rs` lines 305-352: `add_face`. -/
def addFace (h : Husk) (p0 p1 p2 : Point) (smo : Shading) :
    Except Err Husk :=
  match p0.ptType, p1.ptType, p2.ptType with
  | .vertex v0, .vertex v1, .vertex v2 => do
    let b ← h.builder.pushFace ⟨v0, v1, v2, smo⟩
    .ok { h with builder := b }
  | .branch lbl, .vertex v0, .vertex v1 => addFaceEdge h lbl v0 v1
  | .vertex v1, .branch lbl, .vertex v0 => addFaceEdge h lbl v0 v1
  | .vertex v0, .vertex v1, .branch lbl => addFaceEdge h lbl v0 v1
  | .vertex _, .branch b0, .branch b1 => addFaceTwo h b0 b1
  | .branch b0, .vertex _, .branch b1 => addFaceTwo h b0 b1
  | .branch b0, .branch b1, .vertex _ => addFaceTwo h b0 b1
  | .branch b0, .branch b1, .branch b2 => addFaceThree h b0 b1 b2

/-- `husk.rs` lines 252-265: `ring_points`. -/
def ringPoints (h : Husk) (r : Ring) (hsOther : Nat) : List Point :=
  let pts := (h.points.filter (fun p => p.ringId = r.id)).map
    (fun p => { p with orderDeg := degAdd p.orderDeg hsOther })
  (sortPts pts).reverse

/-- The band triangle-strip loop of `husk.rs` lines 283-290 (`Vec::pop`
consumes from the back, so the loop walks the reversed band list front
to back). -/
def bandLoop (r0id : Nat) (smo : Shading) :
    Husk → Point → Point → List Point → Except Err (Husk × Point × Point)
  | h, pt1, pt0, [] => .ok (h, pt1, pt0)
  | h, pt1, pt0, pt :: rest => do
    let h2 ← addFace h pt1 pt0 pt smo
    if pt.ringId = r0id then bandLoop r0id smo h2 pt1 pt rest
    else bandLoop r0id smo h2 pt pt0 rest

/-- `husk.rs` lines 268-302: `make_band`.  Unlike the `model.rs`
generation, the two closing faces are emitted only when the strip anchors
moved (`pt1 != first1`, `pt0 != first0`). -/
def makeBand (h : Husk) (ring0 ring1 : Ring) : Except Err Husk := do
  if ring0.id = ring1.id then .error (.invalidRing ring0.id)
  else
    let hs1 ← ring1.halfStep
    let pts0 := ringPoints h ring0 hs1
    let hs0 ← ring0.halfStep
    let pts1 := ringPoints h ring1 hs0
    let first0 ← match pts0.getLast? with
      | none => .error (.invalidRing ring0.id)
      | some p => .ok p
    let first1 ← match pts1.getLast? with
      | none => .error (.invalidRing ring1.id)
      | some p => .ok p
    let band := (sortPts (pts0.dropLast ++ pts1.dropLast)).reverse
    let smo := ring0.shadingOrDefault
    let res ← bandLoop ring0.id smo h first1 first0 band.reverse
    let h2 := res.1
    let pt1 := res.2.1
    let pt0 := res.2.2
    let h3 ←
      if pt1 ≠ first1 then addFace h2 pt1 pt0 first1 smo else .ok h2
    if pt0 ≠ first0 then addFace h3 first0 first1 pt0 smo else .ok h3

/-- The cap fan loop of `husk.rs` lines 174-177. -/
def capLoop (smo : Shading) (center : Point) :
    Husk → Point → List Point → Except Err (Husk × Point)
  | h, prev, [] => .ok (h, prev)
  | h, prev, pt :: rest => do
    let h2 ← addFace h pt prev center smo
    capLoop smo center h2 pt rest

/-- `husk.rs` lines 161-181: `cap_ring`.  After popping the last point
an empty remainder returns `Ok(())` — a one-point ring is a no-op; an
empty ring is an `InvalidRing` error. -/
def capRing (h : Husk) (ring : Ring) : Except Err Husk := do
  let pts := ringPoints h ring 0
  let last ← match pts.getLast? with
    | none => .error (.invalidRing ring.id)
    | some p => .ok p
  let pts := pts.dropLast
  if pts.isEmpty then .ok h
  else
    let pos := ring.xform.transformPoint3 V3.zero
    let (vid, b) := h.builder.pushVtx pos
    let h := { h with builder := b }
    let ring := { ring with id := h.ringId }
    let h := pushPt h 0 (.vertex vid)
    let center := (h.points.getLast?).getD ⟨0, 0, .vertex 0⟩
    let res ← capLoop ring.shadingOrDefault center h last pts
    let h ← addFace res.1 last res.2 center ring.shadingOrDefault
    .ok { h with ringId := h.ringId + 1 }

/-- `husk.rs` lines 153-158: `cap`. -/
def cap (h : Husk) : Except Err Husk :=
  match h.ring with
  | some ring => capRing { h with ring := none } ring
  | none => .ok h

/-- `husk.rs` lines 206-210: `take_branch` — `HashMap::remove`, failing
with `UnknownBranchLabel` when the label is absent. -/
def takeBranch (h : Husk) (lbl : String) : Except Err (Branch × Husk) :=
  match bmGet h.branches lbl with
  | none => .error (.unknownBranchLabel lbl)
  | some br => .ok (br, { h with branches := bmRemove h.branches lbl })

/-- `husk.rs` lines 213-249: `Husk::edge_angles` (the same computation as
`ring.rs` `Branch::edge_angles`, reading the husk's mesh builder). -/
def huskEdgeAngles (g : Geom) (h : Husk) (br : Branch) (ring : Ring) :
    Except Err (List (Nat × Nat)) :=
  br.edgeAngles g ring h.builder

/-- `husk.rs` lines 184-203: `branch` — cap the open ring, take (remove)
the named branch, seed a ring from it, and push its pre-resolved points. -/
def branch (g : Geom) (h : Husk) (lbl : String) (axis : Option V3) :
    Except Err Husk := do
  let h ← cap h
  let bh ← takeBranch h lbl
  let br := bh.1
  let h := bh.2
  let ring ← Ring.withBranch g br h.builder
  let ring :=
    match axis with
    | some a => ring.axisSet g a
    | none => ring
  let ring := { ring with id := h.ringId }
  let angles ← huskEdgeAngles g h br ring
  let h := angles.foldl (fun h oa => pushPt h oa.1 (.vertex oa.2)) h
  let h := { h with ring := some ring }
  .ok { h with ringId := h.ringId + 1 }

/-- `husk.rs` lines 136-150: `ring` — merge with the previous ring (when
any), instantiate its points, and band against the previous ring. -/
def ring (g : Geom) (h : Husk) (r : Ring) : Except Err Husk := do
  let pring := h.ring
  let h := { h with ring := none }
  let r2 :=
    match pring with
    | some pr => pr.withRing r
    | none => r
  let r2 := { r2 with id := h.ringId }
  let h := { h with ring := some r2 }
  let h := addRingPoints g h r2
  let h ← match pring with
    | some pr => makeBand h pr r2
    | none => .ok h
  .ok { h with ringId := h.ringId + 1 }

end HK

/-!
## `GLB`: the binary exporter (`homunculus/src/gltf.rs`)

The construction of the JSON document and of the packed binary buffer is
serde/driver glue; the chunk/container layout written by `export`,
`write_header` and `write_chunk` is embedded here at the byte level,
parameterised over the serialized JSON string and the binary buffer.
-/

namespace GLB

/-- Little-endian `u32` byte encoding (`to_le_bytes`). -/
def u32le (v : Nat) : List Nat :=
  [v % 256, v / 256 % 256, v / 65536 % 256, v / 16777216 % 256]

/-- The magic bytes `"glTF"`. -/
def magic : List Nat := [103, 108, 84, 70]

/-- The chunk type `"JSON"`. -/
def jsonType : List Nat := [74, 83, 79, 78]

/-- The chunk type `"BIN\x00"`. -/
def binType : List Nat := [66, 73, 78, 0]

/-- `gltf.rs` lines 167-169: right-pad the JSON payload with ASCII spaces
(0x20) until its length is a multiple of 4 (closed form of the `while`
loop, which pushes one space while `len % 4 != 0`). -/
def padJson (s : List Nat) : List Nat :=
  s ++ List.replicate ((4 - s.length % 4) % 4) 32

/-- `gltf.rs` lines 184-190: `write_header` — magic bytes, little-endian
`u32` version 2, little-endian `u32` total length
`12 + chunks * 8 + len`. -/
def writeHeader (chunks len : Nat) : List Nat :=
  magic ++ u32le 2 ++ u32le (12 + chunks * 8 + len)

/-- `gltf.rs` lines 193-199: `write_chunk` — little-endian `u32` payload
length, 4-byte chunk type, payload. -/
def writeChunk (ctype data : List Nat) : List Nat :=
  u32le data.length ++ ctype ++ data

/-- `gltf.rs` lines 162-175: `export`, from the serialized root JSON and
the packed binary buffer onward: pad the JSON, write the header for two
chunks with `len = root_json.len() + bin.len()`, then the `JSON` and
`BIN` chunks. -/
def exportBytes (rootJson bin : List Nat) : List Nat :=
  let rj := padJson rootJson
  writeHeader 2 (rj.length + bin.length)
    ++ writeChunk jsonType rj ++ writeChunk binType bin

end GLB

/-!
## `MH`: the vertex-splitting pass of `homunculus/src/mesh.rs`
(surface-number based)
-/

namespace MH

open Hom

/-- `homunculus/src/mesh.rs` lines 27-34: a face with three vertex
indices and a surface number. -/
structure Face where
  v0 : Nat
  v1 : Nat
  v2 : Nat
  surface : Nat
deriving DecidableEq, Repr

/-- `mesh.rs` lines 67-70: `vertex_surface` — the face's surface number
when the face touches `idx`. -/
def Face.vertexSurface (f : Face) (idx : Nat) : Option Nat :=
  if f.v0 = idx ∨ f.v1 = idx ∨ f.v2 = idx then some f.surface else none

/-- `mesh.rs` lines 72-81: `Face::split_vertex` — repoint the first slot
equal to `idx` at `i`. -/
def Face.splitVtx (f : Face) (idx i : Nat) : Face :=
  if f.v0 = idx then { f with v0 := i }
  else if f.v1 = idx then { f with v1 := i }
  else if f.v2 = idx then { f with v2 := i }
  else f

structure Builder where
  pos : List V3
  faces : List Face
deriving DecidableEq, Repr

def Builder.pushVtx (b : Builder) (p : V3) : Nat × Builder :=
  (b.pos.length, { b with pos := b.pos ++ [p] })

/-- The scan of `mesh.rs` lines 130-142 (`vertex_needs_split`): walk the
faces carrying the previous face's `vertex_surface` and report a split
when two consecutively scanned values are `Some` and differ.  (The
accumulator is overwritten by `None` for faces not touching `idx`,
exactly as in the code.) -/
def needsSplitAux (idx : Nat) : Option Nat → List Face → Bool
  | _, [] => false
  | surface, f :: fs =>
    match f.vertexSurface idx, surface with
    | some s, some sf =>
      if s ≠ sf then true else needsSplitAux idx (f.vertexSurface idx) fs
    | _, _ => needsSplitAux idx (f.vertexSurface idx) fs

def Builder.vertexNeedsSplit (b : Builder) (idx : Nat) : Bool :=
  needsSplitAux idx none b.faces

/-- The body of the surface-collecting loop of `split_vertex`
(`mesh.rs` lines 146-155): the first surface seen at `idx` records the
index `idx` itself, later distinct surfaces record the placeholder 0. -/
def collectStep (idx : Nat) (acc : List (Nat × Nat)) (f : Face) :
    List (Nat × Nat) :=
  match f.vertexSurface idx with
  | some surf =>
    if acc.isEmpty then acc ++ [(surf, idx)]
    else if ¬ acc.any (fun si => si.1 = surf) then acc ++ [(surf, 0)]
    else acc
  | none => acc

/-- The body of the placeholder-assignment loop of `split_vertex`
(`mesh.rs` lines 156-161): each placeholder-0 entry receives a freshly
pushed duplicate of the split vertex's position. -/
def assignStep (pos : V3) (acc : List (Nat × Nat) × Builder)
    (si : Nat × Nat) : List (Nat × Nat) × Builder :=
  if si.2 = 0 then
    let vb := acc.2.pushVtx pos
    (acc.1 ++ [(si.1, vb.1)], vb.2)
  else (acc.1 ++ [si], acc.2)

/-- `mesh.rs` lines 145-173: `split_vertex` — collect the distinct
surfaces touching `idx` (the first keeps `idx`, later ones get the
placeholder 0), push one duplicate position per placeholder, then
repoint every face whose recorded index differs from `idx`. -/
def Builder.splitVertex (b : Builder) (idx : Nat) : Builder :=
  let surfaces := b.faces.foldl (collectStep idx) []
  let pos := b.pos.getD idx V3.zero
  let sb := surfaces.foldl (assignStep pos) ([], b)
  let surfaces := sb.1
  let b := sb.2
  { b with faces := b.faces.map (fun f =>
      match f.vertexSurface idx with
      | some surf =>
        match (surfaces.find? (fun si => si.1 = surf)).map (·.2) with
        | some i => if i ≠ idx then f.splitVtx idx i else f
        | none => f
      | none => f) }

/-- The `while vertex_needs_split { split_vertex }` loop of `mesh.rs`
lines 121-124, indexed by fuel. -/
def Builder.iterSplit (idx : Nat) : Builder → Nat → Builder
  | b, 0 => b
  | b, n + 1 =>
    if b.vertexNeedsSplit idx then (b.splitVertex idx).iterSplit idx n else b

end MH

/-!
## `MS`: the vertex-splitting pass of `src/mesh.rs` (sharp-edge based)
-/

namespace MS

open Hom

/-- `src/mesh.rs` lines 95-100: edge smoothing. -/
inductive MEdge where
  | sharp
  | smooth
deriving DecidableEq, Repr

/-- `src/mesh.rs` lines 112-118: a face with per-edge smoothing. -/
structure Face where
  v0 : Nat
  v1 : Nat
  v2 : Nat
  e0 : MEdge
  e1 : MEdge
  e2 : MEdge
deriving DecidableEq, Repr

/-- `src/mesh.rs` lines 140-144: `Face::new` (all edges smooth). -/
def Face.new (v0 v1 v2 : Nat) : Face :=
  ⟨v0, v1, v2, .smooth, .smooth, .smooth⟩

/-- `src/mesh.rs` lines 146-150: `with_flat` (all edges sharp). -/
def Face.withFlat (f : Face) : Face :=
  { f with e0 := .sharp, e1 := .sharp, e2 := .sharp }

/-- `src/mesh.rs` lines 152-160: `is_sharp_vertex`. -/
def Face.isSharpVertex (f : Face) (idx : Nat) : Bool :=
  (decide (f.v0 = idx) && (decide (f.e0 = MEdge.sharp) || decide (f.e2 = MEdge.sharp)))
  || (decide (f.v1 = idx) && (decide (f.e1 = MEdge.sharp) || decide (f.e0 = MEdge.sharp)))
  || (decide (f.v2 = idx) && (decide (f.e2 = MEdge.sharp) || decide (f.e1 = MEdge.sharp)))

structure Builder where
  pos : List V3
  faces : List Face
deriving DecidableEq, Repr

def Builder.pushVtx (b : Builder) (p : V3) : Nat × Builder :=
  (b.pos.length, { b with pos := b.pos ++ [p] })

/-- The scan of `src/mesh.rs` lines 204-215 (`vertex_needs_split`): true
as soon as a second face with a sharp corner at `idx` is found. -/
def needsSplitAux (idx : Nat) : Bool → List Face → Bool
  | _, [] => false
  | found, f :: fs =>
    if f.isSharpVertex idx then
      if found then true else needsSplitAux idx true fs
    else needsSplitAux idx found fs

def Builder.vertexNeedsSplit (b : Builder) (idx : Nat) : Bool :=
  needsSplitAux idx false b.faces

/-- The repointing loop of `src/mesh.rs` lines 221-232: redirect the
first face with a sharp corner at `idx` to the duplicate `i` and `break`. -/
def repointFirst (idx i : Nat) : List Face → List Face
  | [] => []
  | f :: fs =>
    if f.isSharpVertex idx then
      (if f.v0 = idx then { f with v0 := i }
       else if f.v1 = idx then { f with v1 := i }
       else if f.v2 = idx then { f with v2 := i }
       else f) :: fs
    else f :: repointFirst idx i fs

/-- `src/mesh.rs` lines 218-233: `split_vertex` — duplicate the position
and repoint exactly one sharp face. -/
def Builder.splitVertex (b : Builder) (idx : Nat) : Builder :=
  let pos := b.pos.getD idx V3.zero
  let vb := b.pushVtx pos
  { vb.2 with faces := repointFirst idx vb.1 vb.2.faces }

/-- The `while vertex_needs_split { split_vertex }` loop of
`src/mesh.rs` lines 196-199, indexed by fuel. -/
def Builder.iterSplit (idx : Nat) : Builder → Nat → Builder
  | b, 0 => b
  | b, n + 1 =>
    if b.vertexNeedsSplit idx then (b.splitVertex idx).iterSplit idx n else b

/-- The number of faces with a sharp corner at `idx`. -/
def Builder.sharpCount (b : Builder) (idx : Nat) : Nat :=
  (b.faces.filter (fun f => f.isSharpVertex idx)).length

/-- The number of vertices for which `vertex_needs_split` holds. -/
def Builder.needCount (b : Builder) : Nat :=
  ((List.range b.pos.length).filter (fun v => b.vertexNeedsSplit v)).length

end MS

/-!
## Claim theorems
-/

namespace Hom

/-- `Branch::center` (`ring.rs` lines 437-440 / `model.rs` lines 320-323)
over exact rationals, with the IEEE outcome of the division made
observable: componentwise `fold-sum / len`, where a zero divisor yields
`none` (in `f32` the empty case is `0.0 / 0.0 = NaN` per component — a
returned value, not an error; the function's return type has no failure
channel). -/
def qdiv0 (a b : ℚ) : Option ℚ := if b = 0 then none else some (a / b)

def centerF (internal : List (ℚ × ℚ × ℚ)) :
    Option ℚ × Option ℚ × Option ℚ :=
  let s := internal.foldl
    (fun a b => (a.1 + b.1, a.2.1 + b.2.1, a.2.2 + b.2.2)) (0, 0, 0)
  let len : ℚ := internal.length
  (qdiv0 s.1 len, qdiv0 s.2.1 len, qdiv0 s.2.2 len)

theorem centerF_foldl_sum (l : List (ℚ × ℚ × ℚ)) (a : ℚ × ℚ × ℚ) :
    l.foldl (fun a b => (a.1 + b.1, a.2.1 + b.2.1, a.2.2 + b.2.2)) a =
      (a.1 + (l.map (·.1)).sum, a.2.1 + (l.map (·.2.1)).sum,
        a.2.2 + (l.map (·.2.2)).sum) := by
  induction l generalizing a with
  | nil => simp
  | cons p l ih => simp [ih, add_assoc]

end Hom

open Hom

/-- C4 (confirmed): `Ring::update_with` merges each of the four optional
fields independently — the result takes `other`'s `axis`, `scale` and
`smoothing` (the spec's "shading") when set and its `points` (the spec's
"spokes") when non-empty; otherwise it keeps the previous ring's value. -/
theorem claim4_update_with_inherits (prev other : MD.Ring) :
    (prev.updateWith other).axis = other.axis.or prev.axis
    ∧ (prev.updateWith other).points =
        (if other.points.isEmpty then prev.points else other.points)
    ∧ (prev.updateWith other).scale = other.scale.or prev.scale
    ∧ (prev.updateWith other).smoothing = other.smoothing.or prev.smoothing
    ∧ (prev.updateWith other).id = prev.id := by
  unfold MD.Ring.updateWith
  rcases other with ⟨id, ax, pts, sc, sm⟩
  cases ax <;> cases sc <;> cases sm <;>
    by_cases h : pts.isEmpty <;> simp [h, Option.or]

/-- C7 (code bug): the `Degrees` addition `Degrees(self.0 + rhs.0 % 360)`
does not keep orders in 0..=359 — by Rust precedence it adds `rhs.0 % 360`
without reducing the sum, so offsetting an order of 359° by a half step of
180° (a 1-spoke ring) yields 539°; the intended normalization
`(self.0 + rhs.0) % 360` would give 179. -/
theorem claim7_degrees_add_out_of_range :
    degAdd 359 180 = 539
    ∧ ¬ degAdd 359 180 ≤ 359
    ∧ (HK.ringPoints ⟨⟨[], []⟩, 0, none, [⟨359, 7, .vertex 0⟩], []⟩
        ⟨none, none, none, [⟨1, none⟩], Affine.id, [], 7⟩ 180).map
        Point.orderDeg = [539]
    ∧ (359 + 180) % 360 = 179 := by
  refine ⟨rfl, by decide, ?_, rfl⟩
  decide

/-- C8 (corrected): `Branch::center` is the arithmetic mean of the
internal points when there are any, but on an empty list it does **not**
fail: it returns the all-`NaN` vector (componentwise `0.0 / 0.0`), since
its return type has no error channel. -/
theorem claim8_center_mean (l : List (ℚ × ℚ × ℚ)) (h : l ≠ []) :
    centerF l = (some ((l.map (·.1)).sum / l.length),
      some ((l.map (·.2.1)).sum / l.length),
      some ((l.map (·.2.2)).sum / l.length)) := by
  have h0 : l.length ≠ 0 := by simpa using h
  have hlen : (l.length : ℚ) ≠ 0 := Nat.cast_ne_zero.2 h0
  simp [centerF, centerF_foldl_sum, qdiv0, hlen]

/-- C8 counterexample: on the empty internal list `center` completes and
returns a value — the all-non-finite vector — rather than failing. -/
theorem claim8_counterexample_center_empty :
    centerF [] = (none, none, none) := by
  simp [centerF, centerF_foldl_sum, qdiv0]

/-- C8 witness: the mean of `(1,2,3)` and `(3,4,5)` is `(2,3,4)`. -/
theorem claim8_witness :
    ([((1 : ℚ), (2 : ℚ), (3 : ℚ)), (3, 4, 5)] ≠ ([] : List (ℚ × ℚ × ℚ)))
    ∧ centerF [(1, 2, 3), (3, 4, 5)] = (some 2, some 3, some 4) := by
  refine ⟨by simp, ?_⟩
  rw [claim8_center_mean [(1, 2, 3), (3, 4, 5)] (by simp)]
  norm_num

/-- C6 (confirmed): the exported container starts with the magic bytes
`"glTF"`, the little-endian `u32` value 2, and a little-endian `u32`
total byte length equal to the 12-byte header plus both 8-byte chunk
headers plus both chunk payloads, the JSON payload having been
right-padded with ASCII spaces to a multiple of 4 bytes.  (The size bound
is the `u32` range; larger meshes panic in `try_into().unwrap()` before
writing anything.) -/
theorem claim6_glb_header (rootJson bin : List Nat)
    (hbound :
      12 + 2 * 8 + ((GLB.padJson rootJson).length + bin.length) < 4294967296) :
    (GLB.exportBytes rootJson bin).take 4 = GLB.magic
    ∧ ((GLB.exportBytes rootJson bin).drop 4).take 4 = GLB.u32le 2
    ∧ ((GLB.exportBytes rootJson bin).drop 8).take 4 =
        GLB.u32le (GLB.exportBytes rootJson bin).length
    ∧ (GLB.exportBytes rootJson bin).length =
        12 + (8 + (GLB.padJson rootJson).length) + (8 + bin.length)
    ∧ (GLB.padJson rootJson).length % 4 = 0
    ∧ ∃ k, GLB.padJson rootJson = rootJson ++ List.replicate k 32 := by
  have hlen : (GLB.exportBytes rootJson bin).length =
      12 + (8 + (GLB.padJson rootJson).length) + (8 + bin.length) := by
    simp [GLB.exportBytes, GLB.writeHeader, GLB.writeChunk, GLB.u32le,
      GLB.magic, GLB.jsonType, GLB.binType]
    omega
  refine ⟨?_, ?_, ?_, hlen, ?_, ⟨_, rfl⟩⟩
  · simp [GLB.exportBytes, GLB.writeHeader, GLB.magic, GLB.u32le]
  · simp [GLB.exportBytes, GLB.writeHeader, GLB.magic, GLB.u32le]
  · rw [hlen]
    simp [GLB.exportBytes, GLB.writeHeader, GLB.magic, GLB.u32le,
      GLB.jsonType, GLB.binType]
    omega
  · simp [GLB.padJson]
    omega

/-- C6 witness: a concrete 3-byte JSON document and 4-byte binary buffer. -/
theorem claim6_witness :
    12 + 2 * 8 + ((GLB.padJson [123, 32, 125]).length + [9, 9, 9, 9].length)
      < 4294967296
    ∧ (GLB.exportBytes [123, 32, 125] [9, 9, 9, 9]).take 4 = GLB.magic
    ∧ (GLB.exportBytes [123, 32, 125] [9, 9, 9, 9]).length =
        12 + (8 + (GLB.padJson [123, 32, 125]).length) + (8 + 4) := by
  have h := claim6_glb_header [123, 32, 125] [9, 9, 9, 9] (by decide)
  exact ⟨by decide, h.1, h.2.2.2.1⟩

namespace Hom

/-- The branch labels appearing on the three corners of a face. -/
def faceLabels (p0 p1 p2 : Point) : List String :=
  [p0, p1, p2].filterMap
    (fun p => match p.ptType with | .branch l => some l | .vertex _ => none)

/-- The number of branch-labeled corners of a face. -/
def branchCount (p0 p1 p2 : Point) : Nat :=
  (faceLabels p0 p1 p2).length

end Hom

/-- C5 (confirmed): for a face with at least two branch-labeled corners,
`add_face` succeeds — leaving the state unchanged: no mesh geometry and
no edge — iff all branch labels on the face are equal; otherwise it
fails with `InvalidBranches`.  Holds for both generations. -/
theorem claim5_add_face_branch_consistency
    (m : MD.Model) (h : HK.Husk) (p0 p1 p2 : Point)
    (smoM : MD.Smoothing) (smoH : HK.Shading)
    (hbr : 2 ≤ branchCount p0 p1 p2) :
    (MD.addFace m p0 p1 p2 smoM = .ok m ↔
      ∀ a ∈ faceLabels p0 p1 p2, ∀ b ∈ faceLabels p0 p1 p2, a = b)
    ∧ ((¬ ∀ a ∈ faceLabels p0 p1 p2, ∀ b ∈ faceLabels p0 p1 p2, a = b) →
        ∃ msg, MD.addFace m p0 p1 p2 smoM = .error (.invalidBranches msg))
    ∧ (HK.addFace h p0 p1 p2 smoH = .ok h ↔
      ∀ a ∈ faceLabels p0 p1 p2, ∀ b ∈ faceLabels p0 p1 p2, a = b)
    ∧ ((¬ ∀ a ∈ faceLabels p0 p1 p2, ∀ b ∈ faceLabels p0 p1 p2, a = b) →
        ∃ msg, HK.addFace h p0 p1 p2 smoH = .error (.invalidBranches msg)) := by
  rcases p0 with ⟨o0, r0, t0⟩
  rcases p1 with ⟨o1, r1, t1⟩
  rcases p2 with ⟨o2, r2, t2⟩
  cases t0 with
  | vertex v0 =>
    cases t1 with
    | vertex v1 =>
      cases t2 with
      | vertex v2 => simp [branchCount, faceLabels] at hbr
      | branch b2 => simp [branchCount, faceLabels] at hbr
    | branch b1 =>
      cases t2 with
      | vertex v2 => simp [branchCount, faceLabels] at hbr
      | branch b2 =>
        by_cases heq : b1 = b2
        · subst heq
          simp [MD.addFace, HK.addFace, MD.addFaceTwo, HK.addFaceTwo, faceLabels]
        · simp [MD.addFace, HK.addFace, MD.addFaceTwo, HK.addFaceTwo, faceLabels, heq]
  | branch b0 =>
    cases t1 with
    | vertex v1 =>
      cases t2 with
      | vertex v2 => simp [branchCount, faceLabels] at hbr
      | branch b2 =>
        by_cases heq : b0 = b2
        · subst heq
          simp [MD.addFace, HK.addFace, MD.addFaceTwo, HK.addFaceTwo, faceLabels]
        · simp [MD.addFace, HK.addFace, MD.addFaceTwo, HK.addFaceTwo, faceLabels, heq]
    | branch b1 =>
      cases t2 with
      | vertex v2 =>
        by_cases heq : b0 = b1
        · subst heq
          simp [MD.addFace, HK.addFace, MD.addFaceTwo, HK.addFaceTwo, faceLabels]
        · simp [MD.addFace, HK.addFace, MD.addFaceTwo, HK.addFaceTwo, faceLabels, heq]
      | branch b2 =>
        by_cases h01 : b0 = b1
        · subst h01
          by_cases h02 : b0 = b2
          · subst h02
            simp [MD.addFace, HK.addFace, MD.addFaceThree, HK.addFaceThree, faceLabels]
          · simp [MD.addFace, HK.addFace, MD.addFaceThree, HK.addFaceThree, faceLabels, h02]
        · by_cases h02 : b0 = b2
          · subst h02
            simp [MD.addFace, HK.addFace, MD.addFaceThree, HK.addFaceThree, faceLabels, h01]
          · simp [MD.addFace, HK.addFace, MD.addFaceThree, HK.addFaceThree, faceLabels, h01, h02]

/-- C5 witness: two corners labeled `"a"` and one vertex corner succeed
in both generations without touching the state. -/
theorem claim5_witness :
    2 ≤ branchCount ⟨0, 0, .branch "a"⟩ ⟨10, 0, .branch "a"⟩ ⟨20, 0, .vertex 4⟩
    ∧ MD.addFace MD.Model.new ⟨0, 0, .branch "a"⟩ ⟨10, 0, .branch "a"⟩
        ⟨20, 0, .vertex 4⟩ MD.Smoothing.smooth = .ok MD.Model.new
    ∧ HK.addFace HK.Husk.new ⟨0, 0, .branch "a"⟩ ⟨10, 0, .branch "a"⟩
        ⟨20, 0, .vertex 4⟩ HK.Shading.smooth = .ok HK.Husk.new := by
  refine ⟨by decide, ?_, ?_⟩
  · exact (claim5_add_face_branch_consistency MD.Model.new HK.Husk.new
      ⟨0, 0, .branch "a"⟩ ⟨10, 0, .branch "a"⟩ ⟨20, 0, .vertex 4⟩
      MD.Smoothing.smooth HK.Shading.smooth (by decide)).1.mpr (by decide)
  · exact (claim5_add_face_branch_consistency MD.Model.new HK.Husk.new
      ⟨0, 0, .branch "a"⟩ ⟨10, 0, .branch "a"⟩ ⟨20, 0, .vertex 4⟩
      MD.Smoothing.smooth HK.Shading.smooth (by decide)).2.2.1.mpr (by decide)

namespace MD

open Hom

theorem addFace_vertex (m : Model) (p0 p1 p2 : Point) (smo : Smoothing)
    (v0 v1 v2 : Nat)
    (h0 : p0.ptType = .vertex v0) (h1 : p1.ptType = .vertex v1)
    (h2 : p2.ptType = .vertex v2)
    (hb0 : v0 < m.builder.pos.length) (hb1 : v1 < m.builder.pos.length)
    (hb2 : v2 < m.builder.pos.length) :
    addFace m p0 p1 p2 smo =
      .ok { m with builder :=
        { m.builder with faces := m.builder.faces ++ [⟨v0, v1, v2, smo⟩] } } := by
  simp only [addFace, h0, h1, h2, Builder.pushFace]
  rw [if_neg]
  · rfl
  · push_neg
    exact ⟨hb0, hb1, hb2⟩

theorem ringPoints_perm (m : Model) (r : Ring) (hs : Nat) :
    (ringPoints m r hs).Perm
      ((m.points.filter (fun p => p.ringId = r.id)).map
        (fun p => { p with orderDeg := degAdd p.orderDeg hs })) := by
  unfold ringPoints
  exact (List.reverse_perm _).trans (sortPts_perm _)

theorem ringPoints_length (m : Model) (r : Ring) (hs : Nat) :
    (ringPoints m r hs).length =
      (m.points.filter (fun p => p.ringId = r.id)).length := by
  rw [(ringPoints_perm m r hs).length_eq, List.length_map]

theorem ringPoints_vertex (m : Model) (r : Ring) (hs : Nat)
    (hvx : ∀ p ∈ m.points, p.ringId = r.id →
      ∃ v, p.ptType = Pt.vertex v ∧ v < m.builder.pos.length) :
    ∀ p ∈ ringPoints m r hs,
      (∃ v, p.ptType = Pt.vertex v ∧ v < m.builder.pos.length)
      ∧ p.ringId = r.id := by
  intro p hp
  have hm := (ringPoints_perm m r hs).mem_iff.1 hp
  simp only [List.mem_map, List.mem_filter] at hm
  obtain ⟨q, ⟨hq, hqid⟩, rfl⟩ := hm
  have hqid2 : q.ringId = r.id := by simpa using hqid
  obtain ⟨v, hv, hvb⟩ := hvx q hq hqid2
  exact ⟨⟨v, hv, hvb⟩, hqid2⟩

theorem capLoop_spec (smo : Smoothing) (center : Point) (l : List Point) :
    ∀ (m : Model) (prev : Point),
    (∀ p ∈ l, ∃ v, p.ptType = Pt.vertex v ∧ v < m.builder.pos.length) →
    (∃ v, prev.ptType = Pt.vertex v ∧ v < m.builder.pos.length) →
    (∃ v, center.ptType = Pt.vertex v ∧ v < m.builder.pos.length) →
    ∃ m2 prev2, capLoop smo center m prev l = .ok (m2, prev2)
      ∧ m2.builder.pos = m.builder.pos
      ∧ m2.builder.faces.length = m.builder.faces.length + l.length
      ∧ m2.points = m.points ∧ m2.ringId = m.ringId
      ∧ m2.xform = m.xform ∧ m2.branches = m.branches ∧ m2.ring = m.ring
      ∧ (prev2 = prev ∨ prev2 ∈ l) := by
  induction l with
  | nil =>
    intro m prev _ _ _
    exact ⟨m, prev, rfl, rfl, by simp, rfl, rfl, rfl, rfl, rfl, Or.inl rfl⟩
  | cons pt rest ih =>
    intro m prev hl hprev hcenter
    obtain ⟨vp, hvp, hvpb⟩ := hl pt (List.mem_cons_self _ _)
    obtain ⟨vq, hvq, hvqb⟩ := hprev
    obtain ⟨vc, hvc, hvcb⟩ := hcenter
    have hstep := addFace_vertex m pt prev center smo vp vq vc hvp hvq hvc
      hvpb hvqb hvcb
    obtain ⟨m2, prev2, hrun, hpos, hfl, hpts, hrid, hxf, hbr, hrg, hprev2⟩ :=
      ih { m with builder :=
          { m.builder with faces := m.builder.faces ++ [⟨vp, vq, vc, smo⟩] } }
        pt
        (fun p hp => hl p (List.mem_cons_of_mem _ hp))
        ⟨vp, hvp, hvpb⟩ ⟨vc, hvc, hvcb⟩
    refine ⟨m2, prev2, ?_, hpos, ?_, hpts, hrid, hxf, hbr, hrg, ?_⟩
    · simp only [capLoop, hstep]
      exact hrun
    · simp only [hfl]
      simp
      omega
    · rcases hprev2 with h | h
      · exact Or.inr (h ▸ List.mem_cons_self _ _)
      · exact Or.inr (List.mem_cons_of_mem _ h)

end MD

namespace MD

open Hom

/-- Unfolding equation for `capRing` once the last ring point is known:
hub vertex and hub point are pushed, then the fan loop and the closing
face run. -/
theorem capRing_eq (m : Model) (ring : Ring) (last : Point)
    (hlast : (ringPoints m ring 0).getLast? = some last) :
    capRing m ring =
      (capLoop ({ ring with id := m.ringId } : Ring).smoothingOrDefault
          ⟨0, m.ringId, .vertex m.builder.pos.length⟩
          (pushPt
            { m with builder :=
              (m.builder.pushVtx (m.xform.transformPoint3 V3.zero)).2 }
            0 (.vertex (m.builder.pushVtx (m.xform.transformPoint3 V3.zero)).1))
          last (ringPoints m ring 0).dropLast).bind
        (fun res =>
          (addFace res.1 last res.2
            ⟨0, m.ringId, .vertex m.builder.pos.length⟩
            ({ ring with id := m.ringId } : Ring).smoothingOrDefault).bind
          (fun m3 => .ok { m3 with ringId := m3.ringId + 1 })) := by
  unfold capRing
  dsimp only
  rw [hlast]
  simp only [pushPt, Builder.pushVtx, List.getLast?_concat, Option.getD_some]
  rfl

end MD

/-- C2 (corrected): `Model::cap_ring` on a ring with `k ≥ 1` points emits
exactly `k` faces and exactly one new hub vertex — including `k = 1`,
which is **not** a no-op (this generation lacks the emptiness check the
`Husk` generation added); on a ring with 0 points it fails with
`InvalidRing` rather than silently no-oping. -/
theorem claim2_cap_ring (m : MD.Model) (ring : MD.Ring) (k : Nat)
    (hk : (m.points.filter (fun p => p.ringId = ring.id)).length = k)
    (hvx : ∀ p ∈ m.points, p.ringId = ring.id →
      ∃ v, p.ptType = Pt.vertex v ∧ v < m.builder.pos.length) :
    (k = 0 → MD.capRing m ring = .error (.invalidRing ring.id))
    ∧ (1 ≤ k → ∃ m2, MD.capRing m ring = .ok m2
        ∧ m2.builder.pos.length = m.builder.pos.length + 1
        ∧ m2.builder.faces.length = m.builder.faces.length + k) := by
  have hlen : (MD.ringPoints m ring 0).length = k := by
    rw [MD.ringPoints_length]; exact hk
  constructor
  · intro h0
    have hnil : MD.ringPoints m ring 0 = [] :=
      List.length_eq_zero.mp (by omega)
    unfold MD.capRing
    dsimp only
    rw [hnil]
    rfl
  · intro h1
    have hne : MD.ringPoints m ring 0 ≠ [] := by
      intro hh
      rw [hh] at hlen
      simp at hlen
      omega
    have hlast : (MD.ringPoints m ring 0).getLast? =
        some ((MD.ringPoints m ring 0).getLast hne) :=
      List.getLast?_eq_getLast _ hne
    have hallv := MD.ringPoints_vertex m ring 0 hvx
    obtain ⟨vlast, hvlast, hvlastb⟩ :=
      (hallv _ (List.getLast_mem hne)).1
    obtain ⟨m2, prev2, hrun, hpos, hfl, hpts, hrid, hxf, hbr, hrg, hprev2⟩ :=
      MD.capLoop_spec ({ ring with id := m.ringId } : MD.Ring).smoothingOrDefault
        ⟨0, m.ringId, .vertex m.builder.pos.length⟩
        ((MD.ringPoints m ring 0).dropLast)
        (MD.pushPt
          { m with builder :=
            (m.builder.pushVtx (m.xform.transformPoint3 V3.zero)).2 }
          0 (.vertex (m.builder.pushVtx (m.xform.transformPoint3 V3.zero)).1))
        ((MD.ringPoints m ring 0).getLast hne)
        (by
          intro p hp
          obtain ⟨⟨v, hv, hvb⟩, _⟩ :=
            hallv p ((List.dropLast_sublist _).mem hp)
          refine ⟨v, hv, ?_⟩
          simp [MD.pushPt, MD.Builder.pushVtx]
          omega)
        (⟨vlast, hvlast, by
          simp [MD.pushPt, MD.Builder.pushVtx]
          omega⟩)
        (⟨m.builder.pos.length, rfl, by
          simp [MD.pushPt, MD.Builder.pushVtx]⟩)
    have hposlen : m2.builder.pos.length = m.builder.pos.length + 1 := by
      rw [hpos]
      simp [MD.pushPt, MD.Builder.pushVtx]
    have hprev2v : ∃ v, prev2.ptType = Pt.vertex v ∧
        v < m2.builder.pos.length := by
      rcases hprev2 with h | h
      · exact ⟨vlast, h ▸ hvlast, by omega⟩
      · obtain ⟨⟨v, hv, hvb⟩, _⟩ := hallv _ ((List.dropLast_sublist _).mem h)
        exact ⟨v, hv, by omega⟩
    obtain ⟨v2, hv2, hv2b⟩ := hprev2v
    have hfinal := MD.addFace_vertex m2
      ((MD.ringPoints m ring 0).getLast hne) prev2
      ⟨0, m.ringId, .vertex m.builder.pos.length⟩
      ({ ring with id := m.ringId } : MD.Ring).smoothingOrDefault
      vlast v2 m.builder.pos.length
      hvlast hv2 rfl (by omega) hv2b (by omega)
    refine ⟨{ m2 with
        builder := { m2.builder with faces := m2.builder.faces ++
          [⟨vlast, v2, m.builder.pos.length,
            ({ ring with id := m.ringId } : MD.Ring).smoothingOrDefault⟩] }
        ringId := m2.ringId + 1 }, ?_, ?_, ?_⟩
    · rw [MD.capRing_eq m ring _ hlast, hrun]
      show (MD.addFace m2 _ prev2 _ _).bind _ = _
      rw [hfinal]
      rfl
    · simpa using hposlen
    · show (m2.builder.faces ++ [_]).length = m.builder.faces.length + k
      rw [List.length_append, hfl]
      simp [MD.pushPt, MD.Builder.pushVtx]
      have : (MD.ringPoints m ring 0).dropLast.length = k - 1 := by
        rw [List.length_dropLast, hlen]
      omega

/-- C2 counterexample: capping a ring with exactly one resolved point is
not a no-op — `Model::cap_ring` creates a hub vertex (2 positions total)
and emits one degenerate face `[v0, v0, hub]` (whose equal corners also
violate the `debug_assert_ne!` contract of `Face::new`). -/
theorem claim2_counterexample_one_point_not_noop :
    (MD.capRing
      ⟨⟨[V3.zero], []⟩, 0, Affine.id, none, [⟨0, 5, .vertex 0⟩], []⟩
      ⟨5, none, [⟨1, none⟩], none, none⟩).toOption.map
      (fun m2 => (m2.builder.pos.length,
        m2.builder.faces.map (fun f => (f.v0, f.v1, f.v2)))) =
      some (2, [(0, 0, 1)]) := by
  decide

/-- C2 witness: a two-point ring is capped with 2 faces and 1 hub vertex. -/
theorem claim2_witness :
    (∃ m2,
      MD.capRing
        ⟨⟨[V3.zero, V3.zero], []⟩, 0, Affine.id, none,
          [⟨0, 5, .vertex 0⟩, ⟨180, 5, .vertex 1⟩], []⟩
        ⟨5, none, [⟨1, none⟩, ⟨1, none⟩], none, none⟩ = .ok m2
      ∧ m2.builder.pos.length =
          (MD.Model.mk ⟨[V3.zero, V3.zero], []⟩ 0 Affine.id none
            [⟨0, 5, .vertex 0⟩, ⟨180, 5, .vertex 1⟩] []).builder.pos.length + 1
      ∧ m2.builder.faces.length =
          (MD.Model.mk ⟨[V3.zero, V3.zero], []⟩ 0 Affine.id none
            [⟨0, 5, .vertex 0⟩, ⟨180, 5, .vertex 1⟩] []).builder.faces.length
            + 2) := by
  exact (claim2_cap_ring
    ⟨⟨[V3.zero, V3.zero], []⟩, 0, Affine.id, none,
      [⟨0, 5, .vertex 0⟩, ⟨180, 5, .vertex 1⟩], []⟩
    ⟨5, none, [⟨1, none⟩, ⟨1, none⟩], none, none⟩ 2
    (by decide)
    (by
      intro p hp hid
      simp at hp
      rcases hp with rfl | rfl
      · exact ⟨0, rfl, by decide⟩
      · exact ⟨1, rfl, by decide⟩)).2 (by decide)

namespace MS

open Hom

theorem needsSplitAux_count (idx : Nat) (l : List Face) :
    ∀ b : Bool, (needsSplitAux idx b l = true ↔
      (if b then 1 else 2) ≤
        (l.filter (fun f => f.isSharpVertex idx)).length) := by
  induction l with
  | nil => intro b; cases b <;> simp [needsSplitAux]
  | cons f fs ih =>
    intro b
    by_cases hf : f.isSharpVertex idx
    · cases b <;>
        simp [needsSplitAux, hf, ih true, List.filter_cons] <;> omega
    · cases b <;>
        simp [needsSplitAux, hf, ih true, ih false, List.filter_cons]

theorem vertexNeedsSplit_iff (b : Builder) (idx : Nat) :
    b.vertexNeedsSplit idx = true ↔ 2 ≤ b.sharpCount idx := by
  simpa [Builder.vertexNeedsSplit, Builder.sharpCount] using
    needsSplitAux_count idx b.faces false

theorem Face.not_sharp_of_not_mem (f : Face) (idx : Nat)
    (h0 : f.v0 ≠ idx) (h1 : f.v1 ≠ idx) (h2 : f.v2 ≠ idx) :
    f.isSharpVertex idx = false := by
  simp [Face.isSharpVertex, h0, h1, h2]

/-- Redirecting the single `idx` slot of a sharp face (with pairwise
distinct corners) to a fresh index `i ≠ idx` removes its sharp corner at
`idx`. -/
theorem repointFace_not_sharp (f : Face) (idx i : Nat) (hii : i ≠ idx)
    (hdist : f.v0 ≠ f.v1 ∧ f.v1 ≠ f.v2 ∧ f.v2 ≠ f.v0)
    (hf : f.isSharpVertex idx = true) :
    ((if f.v0 = idx then { f with v0 := i }
      else if f.v1 = idx then { f with v1 := i }
      else if f.v2 = idx then { f with v2 := i }
      else f) : Face).isSharpVertex idx = false := by
  obtain ⟨d01, d12, d20⟩ := hdist
  by_cases h0 : f.v0 = idx
  · rw [if_pos h0]
    exact Face.not_sharp_of_not_mem _ _ hii (fun h => d01 (h0.trans h.symm))
      (fun h => d20 (h.trans h0.symm))
  · rw [if_neg h0]
    by_cases h1 : f.v1 = idx
    · rw [if_pos h1]
      exact Face.not_sharp_of_not_mem _ _ h0 hii
        (fun h => d12 (h1.trans h.symm))
    · rw [if_neg h1]
      by_cases h2 : f.v2 = idx
      · rw [if_pos h2]
        exact Face.not_sharp_of_not_mem _ _ h0 h1 hii
      · rw [if_neg h2]
        rw [Face.not_sharp_of_not_mem f idx h0 h1 h2] at hf
        exact absurd hf (by simp)

theorem repointFirst_filter (idx i : Nat) (l : List Face) (hii : i ≠ idx)
    (hdist : ∀ f ∈ l, f.v0 ≠ f.v1 ∧ f.v1 ≠ f.v2 ∧ f.v2 ≠ f.v0) :
    ((repointFirst idx i l).filter (fun f => f.isSharpVertex idx)).length
      = (l.filter (fun f => f.isSharpVertex idx)).length - 1 ∨
    ((l.filter (fun f => f.isSharpVertex idx)).length = 0 ∧
      repointFirst idx i l = l) := by
  induction l with
  | nil => exact Or.inr ⟨by simp, rfl⟩
  | cons f fs ih =>
    by_cases hf : f.isSharpVertex idx
    · left
      simp only [repointFirst, if_pos hf]
      rw [List.filter_cons_of_neg (by
          simp only [Bool.not_eq_true]
          exact repointFace_not_sharp f idx i hii
            (hdist f (List.mem_cons_self _ _)) hf)]
      rw [List.filter_cons_of_pos (by simpa using hf)]
      simp
    · simp only [repointFirst, if_neg hf]
      rw [List.filter_cons_of_neg (by simpa using hf),
        List.filter_cons_of_neg (by simpa using hf)]
      rcases ih (fun g hg => hdist g (List.mem_cons_of_mem _ hg)) with h | h
      · exact Or.inl h
      · exact Or.inr ⟨h.1, by rw [h.2]⟩

/-- One `split_vertex` call strictly reduces the number of faces with a
sharp corner at `idx` (when there is one). -/
theorem splitVertex_sharpCount (b : Builder) (idx : Nat)
    (hidx : idx < b.pos.length)
    (hdist : ∀ f ∈ b.faces, f.v0 ≠ f.v1 ∧ f.v1 ≠ f.v2 ∧ f.v2 ≠ f.v0)
    (hs : 1 ≤ b.sharpCount idx) :
    (b.splitVertex idx).sharpCount idx = b.sharpCount idx - 1 := by
  have hii : b.pos.length ≠ idx := by omega
  rcases repointFirst_filter idx b.pos.length b.faces hii hdist with h | h
  · simpa [Builder.splitVertex, Builder.pushVtx, Builder.sharpCount] using h
  · rw [Builder.sharpCount] at hs
    omega

theorem repointFirst_mem (idx i : Nat) (l : List Face) :
    ∀ f2 ∈ repointFirst idx i l, f2 ∈ l ∨ ∃ f ∈ l,
      f2 = (if f.v0 = idx then { f with v0 := i }
        else if f.v1 = idx then { f with v1 := i }
        else if f.v2 = idx then { f with v2 := i }
        else f) := by
  induction l with
  | nil => simp [repointFirst]
  | cons f fs ih =>
    intro f2 hf2
    by_cases hf : f.isSharpVertex idx
    · simp only [repointFirst, if_pos hf] at hf2
      rcases List.mem_cons.1 hf2 with rfl | h
      · exact Or.inr ⟨f, List.mem_cons_self _ _, rfl⟩
      · exact Or.inl (List.mem_cons_of_mem _ h)
    · simp only [repointFirst, if_neg hf] at hf2
      rcases List.mem_cons.1 hf2 with rfl | h
      · exact Or.inl (List.mem_cons_self _ _)
      · rcases ih f2 h with h2 | ⟨g, hg, hgeq⟩
        · exact Or.inl (List.mem_cons_of_mem _ h2)
        · exact Or.inr ⟨g, List.mem_cons_of_mem _ hg, hgeq⟩

/-- The builder invariant: faces reference existing, pairwise-distinct
vertices. -/
def Builder.wf (b : Builder) : Prop :=
  ∀ f ∈ b.faces,
    (f.v0 < b.pos.length ∧ f.v1 < b.pos.length ∧ f.v2 < b.pos.length)
    ∧ (f.v0 ≠ f.v1 ∧ f.v1 ≠ f.v2 ∧ f.v2 ≠ f.v0)

theorem splitVertex_wf (b : Builder) (idx : Nat) (hwf : b.wf) :
    (b.splitVertex idx).wf := by
  intro f2 hf2
  simp only [Builder.splitVertex, Builder.pushVtx] at hf2
  have hlen : (b.splitVertex idx).pos.length = b.pos.length + 1 := by
    simp [Builder.splitVertex, Builder.pushVtx]
  rw [hlen]
  rcases repointFirst_mem idx b.pos.length b.faces f2 hf2 with h | ⟨g, hg, rfl⟩
  · obtain ⟨⟨b0, b1, b2⟩, hd⟩ := hwf f2 h
    exact ⟨⟨by omega, by omega, by omega⟩, hd⟩
  · obtain ⟨⟨b0, b1, b2⟩, ⟨d01, d12, d20⟩⟩ := hwf g hg
    by_cases h0 : g.v0 = idx
    · rw [if_pos h0]
      exact ⟨⟨by simp <;> omega, by simp <;> omega, by simp <;> omega⟩,
        by simp <;> omega, by simp <;> omega, by simp <;> omega⟩
    · rw [if_neg h0]
      by_cases h1 : g.v1 = idx
      · rw [if_pos h1]
        exact ⟨⟨by simp <;> omega, by simp <;> omega, by simp <;> omega⟩,
          by simp <;> omega, by simp <;> omega, by simp <;> omega⟩
      · rw [if_neg h1]
        by_cases h2 : g.v2 = idx
        · rw [if_pos h2]
          exact ⟨⟨by simp <;> omega, by simp <;> omega, by simp <;> omega⟩,
            by simp <;> omega, by simp <;> omega, by simp <;> omega⟩
        · rw [if_neg h2]
          exact ⟨⟨by omega, by omega, by omega⟩, d01, d12, d20⟩

/-- Termination of the inner `while` loop of `split_edge_seams`: with
fuel `n ≥ sharpCount - 1` the loop reaches a state that no longer needs
splitting. -/
theorem iterSplit_done (idx : Nat) : ∀ (n : Nat) (b : Builder),
    idx < b.pos.length → b.wf → b.sharpCount idx ≤ n + 1 →
    ((b.iterSplit idx n).vertexNeedsSplit idx) = false := by
  intro n
  induction n with
  | zero =>
    intro b hidx hwf hc
    simp only [Builder.iterSplit]
    by_cases h : b.vertexNeedsSplit idx
    · rw [vertexNeedsSplit_iff] at h
      omega
    · simpa using h
  | succ n ih =>
    intro b hidx hwf hc
    simp only [Builder.iterSplit]
    by_cases h : b.vertexNeedsSplit idx = true
    · rw [if_pos h]
      have h2 := (vertexNeedsSplit_iff b idx).1 h
      have hdec := splitVertex_sharpCount b idx hidx
        (fun f hf => (hwf f hf).2) (by omega)
      have hlen : (b.splitVertex idx).pos.length = b.pos.length + 1 := by
        simp [Builder.splitVertex, Builder.pushVtx]
      exact ih (b.splitVertex idx) (by omega) (splitVertex_wf b idx hwf)
        (by omega)
    · rw [if_neg h]
      simpa using h

end MS

namespace MH

open Hom

/-- Invariant of the surface-collection loop: the accumulator is empty,
or its head carries the index `idx` and every later entry carries the
placeholder 0. -/
def shapeInv (idx : Nat) (acc : List (Nat × Nat)) : Prop :=
  acc = [] ∨ ∃ s0 tl, acc = (s0, idx) :: tl ∧ ∀ e ∈ tl, e.2 = 0

theorem collect_shape (idx : Nat) (faces : List Face) :
    ∀ acc, shapeInv idx acc →
      shapeInv idx (faces.foldl (collectStep idx) acc) := by
  induction faces with
  | nil => intro acc h; exact h
  | cons f fs ih =>
    intro acc h
    apply ih
    unfold collectStep
    cases hvs : f.vertexSurface idx with
    | none => exact h
    | some surf =>
      rcases h with rfl | ⟨s0, tl, rfl, htl⟩
      · simp only [List.isEmpty_nil, if_pos, List.nil_append]
        exact Or.inr ⟨surf, [], rfl, by simp⟩
      · simp only [List.isEmpty_cons, if_neg, Bool.false_eq_true,
          not_false_eq_true]
        by_cases hany : ((s0, idx) :: tl).any (fun si => si.1 = surf)
        · simp only [hany, not_true_eq_false, if_neg, not_false_eq_true,
            if_false]
          exact Or.inr ⟨s0, tl, rfl, htl⟩
        · simp only [hany, Bool.false_eq_true, not_false_eq_true, if_pos,
            List.cons_append]
          refine Or.inr ⟨s0, tl ++ [(surf, 0)], rfl, ?_⟩
          intro e he
          rcases List.mem_append.1 he with he | he
          · exact htl e he
          · simp at he
            rw [he]

/-- A key already present in the accumulator stays present. -/
theorem keyIn_mono (idx : Nat) (faces : List Face) (s : Nat) :
    ∀ acc, (∃ e ∈ acc, e.1 = s) →
      ∃ e ∈ faces.foldl (collectStep idx) acc, e.1 = s := by
  induction faces with
  | nil => intro acc h; exact h
  | cons f fs ih =>
    intro acc h
    apply ih
    unfold collectStep
    obtain ⟨e, he, hes⟩ := h
    cases f.vertexSurface idx with
    | none => exact ⟨e, he, hes⟩
    | some surf =>
      dsimp only
      by_cases hemp : acc.isEmpty = true
      · rw [if_pos hemp]
        exact ⟨e, List.mem_append_left _ he, hes⟩
      · rw [if_neg hemp]
        by_cases hany : (acc.any fun si => si.1 = surf) = true
        · rw [if_neg (not_not_intro hany)]
          exact ⟨e, he, hes⟩
        · rw [if_pos hany]
          exact ⟨e, List.mem_append_left _ he, hes⟩

/-- Every surface that touches `idx` ends up as a key of the collected
list. -/
theorem collect_keys (idx : Nat) (faces : List Face) :
    ∀ acc, ∀ f ∈ faces, ∀ surf, f.vertexSurface idx = some surf →
      ∃ e ∈ faces.foldl (collectStep idx) acc, e.1 = surf := by
  induction faces with
  | nil => intro acc f hf; simp at hf
  | cons g gs ih =>
    intro acc f hf surf hsurf
    rcases List.mem_cons.1 hf with rfl | hf2
    · rw [List.foldl_cons]
      apply keyIn_mono
      unfold collectStep
      rw [hsurf]
      dsimp only
      by_cases hemp : acc.isEmpty = true
      · rw [if_pos hemp]
        exact ⟨(surf, idx), by simp⟩
      · rw [if_neg hemp]
        by_cases hany : (acc.any fun si => si.1 = surf) = true
        · rw [if_neg (not_not_intro hany)]
          obtain ⟨e, he, hes⟩ := List.any_eq_true.1 hany
          exact ⟨e, he, by simpa using hes⟩
        · rw [if_pos hany]
          exact ⟨(surf, 0), by simp⟩
    · rw [List.foldl_cons]
      exact ih (collectStep idx acc g) f hf2 surf hsurf

/-- Relation between an entry before and after the placeholder
assignment: keys are unchanged; a placeholder-0 entry received a fresh
index `≥ N`, any other entry is untouched. -/
def assignRel (N : Nat) (e e2 : Nat × Nat) : Prop :=
  e2.1 = e.1 ∧ ((e.2 = 0 ∧ N ≤ e2.2) ∨ (e.2 ≠ 0 ∧ e2.2 = e.2))

theorem assign_spec (pos : V3) (N : Nat) (sl : List (Nat × Nat)) :
    ∀ (acc0 : List (Nat × Nat)) (b0 : Builder), N ≤ b0.pos.length →
    ∃ out b1, sl.foldl (assignStep pos) (acc0, b0) = (acc0 ++ out, b1)
      ∧ List.Forall₂ (assignRel N) sl out
      ∧ b1.faces = b0.faces ∧ N ≤ b1.pos.length := by
  induction sl with
  | nil =>
    intro acc0 b0 hN
    exact ⟨[], b0, by simp, List.Forall₂.nil, rfl, hN⟩
  | cons si rest ih =>
    intro acc0 b0 hN
    by_cases h0 : si.2 = 0
    · obtain ⟨out, b1, heq, hrel, hfc, hN1⟩ :=
        ih (acc0 ++ [(si.1, b0.pos.length)])
          { b0 with pos := b0.pos ++ [pos] }
          (by simp; omega)
      refine ⟨(si.1, b0.pos.length) :: out, b1, ?_, ?_, by simpa using hfc,
        hN1⟩
      · simp only [List.foldl_cons, assignStep, if_pos h0, Builder.pushVtx]
        rw [heq]
        simp
      · exact List.Forall₂.cons ⟨rfl, Or.inl ⟨h0, hN⟩⟩ hrel
    · obtain ⟨out, b1, heq, hrel, hfc, hN1⟩ := ih (acc0 ++ [si]) b0 hN
      refine ⟨si :: out, b1, ?_, ?_, hfc, hN1⟩
      · simp only [List.foldl_cons, assignStep, if_neg h0]
        rw [heq]
        simp
      · exact List.Forall₂.cons ⟨rfl, Or.inr ⟨h0, rfl⟩⟩ hrel

/-- `find?` transfer along `Forall₂ (assignRel N)` (keys coincide). -/
theorem find?_assign (N : Nat) (s : Nat) :
    ∀ {l l2 : List (Nat × Nat)}, List.Forall₂ (assignRel N) l l2 →
    ∀ e, l.find? (fun si => si.1 = s) = some e →
    ∃ e2, l2.find? (fun si => si.1 = s) = some e2 ∧ assignRel N e e2 := by
  intro l l2 hrel
  induction hrel with
  | nil => intro e he; simp at he
  | cons hR hrest ih =>
    rename_i a b l1 l2'
    intro e he
    by_cases hk : a.1 = s
    · rw [List.find?_cons_of_pos _ (by simpa using hk)] at he
      refine ⟨b, ?_, ?_⟩
      · rw [List.find?_cons_of_pos _ (by simp [hR.1, hk])]
      · cases he
        exact hR
    · rw [List.find?_cons_of_neg _ (by simpa using hk)] at he
      obtain ⟨e2, he2, hRe⟩ := ih e he
      refine ⟨e2, ?_, hRe⟩
      rw [List.find?_cons_of_neg _ (by simp [hR.1, hk])]
      exact he2

/-- Repointing the unique `idx` slot of a touching face (with distinct
corners) to `i ≠ idx` makes it no longer touch `idx`. -/
theorem splitVtx_none (f : Face) (idx i : Nat) (hii : i ≠ idx)
    (hdist : f.v0 ≠ f.v1 ∧ f.v1 ≠ f.v2 ∧ f.v2 ≠ f.v0)
    (htouch : (f.vertexSurface idx).isSome) :
    (f.splitVtx idx i).vertexSurface idx = none := by
  obtain ⟨d01, d12, d20⟩ := hdist
  have hmem : f.v0 = idx ∨ f.v1 = idx ∨ f.v2 = idx := by
    by_contra hc
    push_neg at hc
    simp [Face.vertexSurface, hc.1, hc.2.1, hc.2.2] at htouch
  unfold Face.splitVtx
  by_cases h0 : f.v0 = idx
  · rw [if_pos h0]
    simp only [Face.vertexSurface]
    rw [if_neg]
    push_neg
    exact ⟨hii, fun h => d01 (h0.trans h.symm), fun h => d20 (h.trans h0.symm)⟩
  · rw [if_neg h0]
    by_cases h1 : f.v1 = idx
    · rw [if_pos h1]
      simp only [Face.vertexSurface]
      rw [if_neg]
      push_neg
      exact ⟨h0, hii, fun h => d12 (h1.trans h.symm)⟩
    · rw [if_neg h1]
      by_cases h2 : f.v2 = idx
      · rw [if_pos h2]
        simp only [Face.vertexSurface]
        rw [if_neg]
        push_neg
        exact ⟨h0, h1, hii⟩
      · rcases hmem with h | h | h
        · exact absurd h h0
        · exact absurd h h1
        · exact absurd h h2

theorem needsSplitAux_false (idx : Nat) (s0 : Nat) (l : List Face)
    (hall : ∀ f ∈ l, f.vertexSurface idx = none
      ∨ f.vertexSurface idx = some s0) :
    ∀ acc, (acc = none ∨ acc = some s0) → needsSplitAux idx acc l = false := by
  induction l with
  | nil => intro acc _; rfl
  | cons f fs ih =>
    intro acc hacc
    have ih2 := ih (fun g hg => hall g (List.mem_cons_of_mem _ hg))
    rcases hall f (List.mem_cons_self _ _) with hf | hf <;>
      rcases hacc with rfl | rfl <;>
        simp only [needsSplitAux, hf]
    · exact ih2 _ (Or.inl rfl)
    · exact ih2 _ (Or.inl rfl)
    · exact ih2 _ (Or.inr rfl)
    · rw [if_neg (by simp)]
      exact ih2 _ (Or.inr rfl)

end MH

namespace MH

open Hom

/-- After one `split_vertex` call every face still touching `idx` carries
the same surface number, so `vertex_needs_split` is false: the `while`
loop of `split_vertices` runs at most one iteration per vertex. -/
theorem splitVertex_not_needed (b : Builder) (idx : Nat)
    (hidx : idx < b.pos.length)
    (hdist : ∀ f ∈ b.faces, f.v0 ≠ f.v1 ∧ f.v1 ≠ f.v2 ∧ f.v2 ≠ f.v0) :
    (b.splitVertex idx).vertexNeedsSplit idx = false := by
  obtain ⟨out, b1, heq, hrel, hfaces, hN⟩ :=
    assign_spec (b.pos.getD idx V3.zero) b.pos.length
      (b.faces.foldl (collectStep idx) []) [] b (le_refl _)
  have hshape := collect_shape idx b.faces [] (Or.inl rfl)
  have hfeq : (b.splitVertex idx).faces = b.faces.map (fun f =>
      match f.vertexSurface idx with
      | some surf =>
        match (out.find? (fun si => si.1 = surf)).map (·.2) with
        | some i => if i ≠ idx then f.splitVtx idx i else f
        | none => f
      | none => f) := by
    unfold Builder.splitVertex
    dsimp only
    rw [heq]
    rw [List.nil_append]
    dsimp only
    rw [hfaces]
  -- a single surface value covers every face still touching idx
  have hcover : ∃ s0, ∀ f ∈ b.faces,
      ((match f.vertexSurface idx with
        | some surf =>
          match (out.find? (fun si => si.1 = surf)).map (·.2) with
          | some i => if i ≠ idx then f.splitVtx idx i else f
          | none => f
        | none => f) : Face).vertexSurface idx = none ∨
      ((match f.vertexSurface idx with
        | some surf =>
          match (out.find? (fun si => si.1 = surf)).map (·.2) with
          | some i => if i ≠ idx then f.splitVtx idx i else f
          | none => f
        | none => f) : Face).vertexSurface idx = some s0 := by
    rcases hshape with hS | ⟨s0, tl, hS, htl⟩
    · refine ⟨0, fun f hf => ?_⟩
      cases hvs : f.vertexSurface idx with
      | none => exact Or.inl (by simp only [hvs])
      | some s =>
        obtain ⟨e, he, _⟩ := collect_keys idx b.faces [] f hf s hvs
        rw [hS] at he
        simp at he
    · refine ⟨s0, fun f hf => ?_⟩
      cases hvs : f.vertexSurface idx with
      | none => exact Or.inl (by simp only [hvs])
      | some s =>
        obtain ⟨e, he, hes⟩ := collect_keys idx b.faces [] f hf s hvs
        have hfind : ((b.faces.foldl (collectStep idx) []).find?
            (fun si => si.1 = s)).isSome = true := by
          rw [List.find?_isSome]
          exact ⟨e, he, by simpa using hes⟩
        obtain ⟨efound, hefound⟩ := Option.isSome_iff_exists.1 hfind
        obtain ⟨e2, he2, hre⟩ := find?_assign b.pos.length s hrel efound hefound
        simp only [hvs, he2, Option.map_some]
        show (if e2.2 ≠ idx then f.splitVtx idx e2.2 else f).vertexSurface idx
            = none ∨
          (if e2.2 ≠ idx then f.splitVtx idx e2.2 else f).vertexSurface idx
            = some s0
        by_cases hi : e2.2 ≠ idx
        · rw [if_pos hi]
          exact Or.inl (splitVtx_none f idx e2.2 hi (hdist f hf)
            (by simp [hvs]))
        · rw [if_neg hi]
          rw [not_not] at hi
          obtain ⟨hkey, hcases⟩ := hre
          rcases hcases with ⟨_, hge⟩ | ⟨hnz, hsame⟩
          · omega
          · have hef : efound.2 = idx := by omega
            have hmem := List.mem_of_find?_eq_some hefound
            rw [hS] at hmem
            rcases List.mem_cons.1 hmem with rfl | hmem2
            · have hp := List.find?_some hefound
              simp at hp
              rw [hvs]
              rw [← hp]
              exact Or.inr rfl
            · have := htl efound hmem2
              rw [this] at hnz
              rw [hef] at this
              exact absurd this.symm (by omega)
  obtain ⟨s0, hcov⟩ := hcover
  show needsSplitAux idx none (b.splitVertex idx).faces = false
  rw [hfeq]
  apply needsSplitAux_false idx s0
  · intro f2 hf2
    obtain ⟨f, hf, rfl⟩ := List.mem_map.1 hf2
    exact hcov f hf
  · exact Or.inl rfl

end MH

namespace MH

open Hom

theorem iterSplit_of_not (idx : Nat) : ∀ (n : Nat) (b : Builder),
    b.vertexNeedsSplit idx = false → b.iterSplit idx n = b := by
  intro n
  induction n with
  | zero => intro b _; rfl
  | succ n ih =>
    intro b hb
    simp only [Builder.iterSplit]
    rw [if_neg (by simp [hb])]

end MH

/-- C10 (corrected): the vertex-splitting pass terminates, but not always
by the claimed measure.  In `homunculus/src/mesh.rs` a single
`split_vertex` call leaves `vertex_needs_split(idx)` false, so each inner
`while` loop runs at most one iteration.  In `src/src/mesh.rs` a call
need **not** reduce the number of vertices needing a split (see the
counterexample); what strictly decreases is the number of faces with a
sharp corner at `idx`, and the inner `while` loop reaches a
non-splitting state within `sharpCount idx` iterations. -/
theorem claim10_split_terminates
    (bh : MH.Builder) (bs : MS.Builder) (idx : Nat)
    (hidxh : idx < bh.pos.length)
    (hdisth : ∀ f ∈ bh.faces, f.v0 ≠ f.v1 ∧ f.v1 ≠ f.v2 ∧ f.v2 ≠ f.v0)
    (hidxs : idx < bs.pos.length) (hwfs : bs.wf) :
    ((bh.splitVertex idx).vertexNeedsSplit idx = false)
    ∧ (∀ n, 1 ≤ n → ((bh.iterSplit idx n).vertexNeedsSplit idx) = false)
    ∧ (bs.vertexNeedsSplit idx = true →
        (bs.splitVertex idx).sharpCount idx = bs.sharpCount idx - 1)
    ∧ (∃ n, ((bs.iterSplit idx n).vertexNeedsSplit idx) = false) := by
  refine ⟨MH.splitVertex_not_needed bh idx hidxh hdisth, ?_, ?_, ?_⟩
  · intro n hn
    cases n with
    | zero => omega
    | succ n =>
      simp only [MH.Builder.iterSplit]
      by_cases h : bh.vertexNeedsSplit idx = true
      · rw [if_pos h]
        rw [MH.iterSplit_of_not idx n _
          (MH.splitVertex_not_needed bh idx hidxh hdisth)]
        exact MH.splitVertex_not_needed bh idx hidxh hdisth
      · rw [if_neg h]
        simpa using h
  · intro hneeds
    have h2 := (MS.vertexNeedsSplit_iff bs idx).1 hneeds
    exact MS.splitVertex_sharpCount bs idx hidxs (fun f hf => (hwfs f hf).2)
      (by omega)
  · exact ⟨bs.sharpCount idx,
      MS.iterSplit_done idx (bs.sharpCount idx) bs hidxs hwfs (by omega)⟩

/-- C10 counterexample: in `src/src/mesh.rs`, a builder with three
all-sharp faces sharing vertex 0 needs a split at 0, yet one
`split_vertex(0)` call leaves the number of vertices for which
`vertex_needs_split` holds unchanged (3 before, 3 after) — the call does
not strictly reduce that count. -/
theorem claim10_counterexample_split_not_decreasing :
    (MS.Builder.mk [V3.zero, V3.zero, V3.zero]
      [(MS.Face.new 0 1 2).withFlat, (MS.Face.new 0 1 2).withFlat,
        (MS.Face.new 0 1 2).withFlat]).vertexNeedsSplit 0 = true
    ∧ ((MS.Builder.mk [V3.zero, V3.zero, V3.zero]
        [(MS.Face.new 0 1 2).withFlat, (MS.Face.new 0 1 2).withFlat,
          (MS.Face.new 0 1 2).withFlat]).splitVertex 0).needCount = 3
    ∧ (MS.Builder.mk [V3.zero, V3.zero, V3.zero]
        [(MS.Face.new 0 1 2).withFlat, (MS.Face.new 0 1 2).withFlat,
          (MS.Face.new 0 1 2).withFlat]).needCount = 3 := by
  refine ⟨by decide, by decide, by decide⟩

/-- C10 witness: concrete builders for both generations. -/
theorem claim10_witness :
    (((MH.Builder.mk [V3.zero, V3.zero, V3.zero]
        [⟨0, 1, 2, 0⟩, ⟨0, 1, 2, 1⟩]).splitVertex 1).vertexNeedsSplit 1
      = false)
    ∧ ((MS.Builder.mk [V3.zero, V3.zero, V3.zero]
        [(MS.Face.new 0 1 2).withFlat, (MS.Face.new 0 1 2).withFlat,
          (MS.Face.new 0 1 2).withFlat]).vertexNeedsSplit 1 = true →
        ((MS.Builder.mk [V3.zero, V3.zero, V3.zero]
          [(MS.Face.new 0 1 2).withFlat, (MS.Face.new 0 1 2).withFlat,
            (MS.Face.new 0 1 2).withFlat]).splitVertex 1).sharpCount 1 =
        (MS.Builder.mk [V3.zero, V3.zero, V3.zero]
          [(MS.Face.new 0 1 2).withFlat, (MS.Face.new 0 1 2).withFlat,
            (MS.Face.new 0 1 2).withFlat]).sharpCount 1 - 1)
    ∧ (∃ n, (((MS.Builder.mk [V3.zero, V3.zero, V3.zero]
        [(MS.Face.new 0 1 2).withFlat, (MS.Face.new 0 1 2).withFlat,
          (MS.Face.new 0 1 2).withFlat]).iterSplit 1 n).vertexNeedsSplit 1)
        = false) := by
  have h := claim10_split_terminates
    (MH.Builder.mk [V3.zero, V3.zero, V3.zero] [⟨0, 1, 2, 0⟩, ⟨0, 1, 2, 1⟩])
    (MS.Builder.mk [V3.zero, V3.zero, V3.zero]
      [(MS.Face.new 0 1 2).withFlat, (MS.Face.new 0 1 2).withFlat,
        (MS.Face.new 0 1 2).withFlat])
    1 (by decide)
    (by
      intro f hf
      simp at hf
      rcases hf with rfl | rfl <;> exact ⟨by decide, by decide, by decide⟩)
    (by decide)
    (by
      intro f hf
      simp at hf
      rcases hf with rfl | rfl | rfl <;>
        exact ⟨⟨by decide, by decide, by decide⟩, by decide, by decide,
          by decide⟩)
  exact ⟨h.1, h.2.2.1, h.2.2.2⟩

/-- C9 (confirmed): `half_step` is the integer division `180 / N` of the
stored spokes list (floor) for `N ≥ 1`; for an empty spokes list the
division `180 / 0` panics.  And the panic is reachable, because the
`EMPTY_RING` substitution happens only in the point-iteration path
(`spokes()`), not in the stored list `half_step` divides by: adding two
default (spoke-less) rings drives `make_band` into the panic, for every
geometry. -/
theorem claim9_half_step_div_zero (g : Geom) (r : HK.Ring) :
    (1 ≤ r.spokes.length →
      HK.Ring.halfStep r = .ok (180 / r.spokes.length))
    ∧ (r.spokes = [] →
      HK.Ring.halfStep r = .error (.panicMsg "attempt to divide by zero"))
    ∧ (∃ h1, HK.ring g HK.Husk.new HK.Ring.default = .ok h1
        ∧ HK.ring g h1 HK.Ring.default =
            .error (.panicMsg "attempt to divide by zero")) := by
  refine ⟨?_, ?_, ⟨_, rfl, rfl⟩⟩
  · intro h
    unfold HK.Ring.halfStep
    rw [if_neg (by omega)]
  · intro h
    unfold HK.Ring.halfStep
    rw [if_pos (by simp [h])]

/-- C9 witness: a 2-spoke ring has half step 90°, an empty ring panics,
and the two-default-ring trace panics under the trivial geometry. -/
theorem claim9_witness :
    (HK.Ring.halfStep ⟨none, none, none, [⟨1, none⟩, ⟨1, none⟩],
        Affine.id, [], 0⟩ = .ok 90)
    ∧ (HK.Ring.halfStep ⟨none, none, none, [], Affine.id, [], 0⟩ =
        .error (.panicMsg "attempt to divide by zero"))
    ∧ (∃ h1, HK.ring trivGeom HK.Husk.new HK.Ring.default = .ok h1
        ∧ HK.ring trivGeom h1 HK.Ring.default =
            .error (.panicMsg "attempt to divide by zero")) := by
  refine ⟨?_, ?_, ?_⟩
  · exact (claim9_half_step_div_zero trivGeom
      ⟨none, none, none, [⟨1, none⟩, ⟨1, none⟩], Affine.id, [], 0⟩).1
      (by decide)
  · exact (claim9_half_step_div_zero trivGeom
      ⟨none, none, none, [], Affine.id, [], 0⟩).2.1 rfl
  · exact (claim9_half_step_div_zero trivGeom HK.Ring.default).2.2

namespace Hom

theorem exc_bind_ok (a : α) (f : α → Except ε β) :
    (Except.ok a : Except ε α) >>= f = f a := rfl

theorem exc_bind_err (e : ε) (f : α → Except ε β) :
    (Except.error e : Except ε α) >>= f = Except.error e := rfl

end Hom

namespace HK

open Hom

/-- `add_face` never inserts a new key into the branch map: a label
absent before a successful call is absent after it. -/
theorem addFace_preserves_absent (h : Husk) (p0 p1 p2 : Point)
    (smo : Shading) (lbl : String) (habs : bmGet h.branches lbl = none)
    (h2 : Husk) (hok : addFace h p0 p1 p2 smo = .ok h2) :
    bmGet h2.branches lbl = none := by
  unfold addFace at hok
  rcases hp0 : p0.ptType with v0 | b0 <;> rcases hp1 : p1.ptType with v1 | b1
    <;> rcases hp2 : p2.ptType with v2 | b2 <;>
    simp only [hp0, hp1, hp2] at hok
  · rcases hpush : h.builder.pushFace ⟨v0, v1, v2, smo⟩ with e | b2
    · rw [hpush, exc_bind_err] at hok
      exact Except.noConfusion hok
    · rw [hpush] at hok
      simp only [exc_bind_ok] at hok
      cases hok
      exact habs
  · -- (vertex, vertex, branch): edge case
    unfold addFaceEdge at hok
    rcases hbm : bmGet h.branches b2 with _ | br
    · rw [hbm] at hok; simp at hok
    · rw [hbm] at hok
      simp only at hok
      cases hok
      have hne : b2 ≠ lbl := by
        intro hh
        rw [hh, habs] at hbm
        cases hbm
      simpa using bmGet_update_ne h.branches lbl b2 _ hne ▸ habs
  · unfold addFaceEdge at hok
    rcases hbm : bmGet h.branches b1 with _ | br
    · rw [hbm] at hok; simp at hok
    · rw [hbm] at hok
      simp only at hok
      cases hok
      have hne : b1 ≠ lbl := by
        intro hh
        rw [hh, habs] at hbm
        cases hbm
      simpa using bmGet_update_ne h.branches lbl b1 _ hne ▸ habs
  · unfold addFaceTwo at hok
    split at hok
    · cases hok
    · cases hok
      exact habs
  · unfold addFaceEdge at hok
    rcases hbm : bmGet h.branches b0 with _ | br
    · rw [hbm] at hok; simp at hok
    · rw [hbm] at hok
      simp only at hok
      cases hok
      have hne : b0 ≠ lbl := by
        intro hh
        rw [hh, habs] at hbm
        cases hbm
      simpa using bmGet_update_ne h.branches lbl b0 _ hne ▸ habs
  · unfold addFaceTwo at hok
    split at hok
    · cases hok
    · cases hok
      exact habs
  · unfold addFaceTwo at hok
    split at hok
    · cases hok
    · cases hok
      exact habs
  · unfold addFaceThree at hok
    split at hok
    · cases hok
    · split at hok
      · cases hok
      · cases hok
        exact habs

theorem capLoop_preserves_absent (smo : Shading) (center : Point)
    (lbl : String) :
    ∀ (l : List Point) (h : Husk) (prev : Point) (res : Husk × Point),
    bmGet h.branches lbl = none →
    capLoop smo center h prev l = .ok res →
    bmGet res.1.branches lbl = none := by
  intro l
  induction l with
  | nil =>
    intro h prev res habs hok
    cases hok
    exact habs
  | cons pt rest ih =>
    intro h prev res habs hok
    unfold capLoop at hok
    rcases hstep : addFace h pt prev center smo with e | h2
    · rw [hstep, exc_bind_err] at hok
      exact Except.noConfusion hok
    · rw [hstep] at hok
      simp only [exc_bind_ok] at hok
      exact ih h2 pt res
        (addFace_preserves_absent h pt prev center smo lbl habs h2 hstep) hok

theorem capTail_preserves_absent (smo : Shading) (center last : Point)
    (lbl : String) (pts : List Point) (H h2 : Husk)
    (hok : (do
        let res ← capLoop smo center H last pts
        let h ← addFace res.1 last res.2 center smo
        .ok { h with ringId := h.ringId + 1 } : Except Err Husk) = .ok h2)
    (habs : bmGet H.branches lbl = none) :
    bmGet h2.branches lbl = none := by
  rcases hloop : capLoop smo center H last pts with e | res
  · rw [hloop, exc_bind_err] at hok
    exact Except.noConfusion hok
  · rw [hloop] at hok
    simp only [exc_bind_ok] at hok
    rcases hface : addFace res.1 last res.2 center smo with e | h3
    · rw [hface, exc_bind_err] at hok
      exact Except.noConfusion hok
    · rw [hface] at hok
      simp only [exc_bind_ok] at hok
      cases hok
      have hres := capLoop_preserves_absent smo center lbl pts H last res
        habs hloop
      exact addFace_preserves_absent res.1 last res.2 center smo lbl
        hres h3 hface

theorem capRing_preserves_absent (h : Husk) (ring : Ring) (lbl : String)
    (habs : bmGet h.branches lbl = none) (h2 : Husk)
    (hok : capRing h ring = .ok h2) :
    bmGet h2.branches lbl = none := by
  unfold capRing at hok
  dsimp only at hok
  rcases hlast : (ringPoints h ring 0).getLast? with _ | last
  · rw [hlast] at hok
    exact Except.noConfusion hok
  · rw [hlast] at hok
    simp only [exc_bind_ok] at hok
    by_cases hemp : (ringPoints h ring 0).dropLast.isEmpty = true
    · rw [if_pos hemp] at hok
      cases hok
      exact habs
    · rw [if_neg hemp] at hok
      exact capTail_preserves_absent _ _ _ lbl _ _ h2 hok habs

theorem cap_preserves_absent (h : Husk) (lbl : String)
    (habs : bmGet h.branches lbl = none) (h2 : Husk)
    (hok : cap h = .ok h2) : bmGet h2.branches lbl = none := by
  unfold cap at hok
  rcases hr : h.ring with _ | ring
  · rw [hr] at hok
    have hok2 : (Except.ok h : Except Err Husk) = .ok h2 := hok
    cases hok2
    exact habs
  · rw [hr] at hok
    have hok2 : capRing { h with ring := none } ring = .ok h2 := hok
    exact capRing_preserves_absent { h with ring := none } ring lbl habs
      h2 hok2

theorem pushPt_fold_branches (angles : List (Nat × Nat)) :
    ∀ h : Husk,
    (angles.foldl (fun h oa => pushPt h oa.1 (.vertex oa.2)) h).branches
      = h.branches := by
  induction angles with
  | nil => intro h; rfl
  | cons a rest ih => intro h; rw [List.foldl_cons]; exact ih _

end HK

/-!
## Claim C3: the branch-label lifecycle

In `husk.rs`, `branch(label)` caps the open ring and then `take`s
(removes) the branch from the mapping, so a successful call leaves the
label absent and any later call on an absent label fails.  In
`model.rs`, `branch(label)` only `get`s the accumulator and never
removes it, so the same label can be entered repeatedly.
-/

namespace HK

theorem takeBranch_ok_branches (h : Husk) (lbl : String)
    (bh : Branch × Husk) (hok : takeBranch h lbl = .ok bh) :
    bh.2.branches = bmRemove h.branches lbl := by
  unfold takeBranch at hok
  rcases hg : bmGet h.branches lbl with _ | br
  · rw [hg] at hok
    exact Except.noConfusion hok
  · rw [hg] at hok
    cases hok
    rfl

theorem takeBranch_absent (h : Husk) (lbl : String)
    (habs : bmGet h.branches lbl = none) :
    takeBranch h lbl = .error (.unknownBranchLabel lbl) := by
  unfold takeBranch
  rw [habs]

theorem branchTail_branches (g : Geom) (br : Branch) (H h2 : Husk)
    (R : Ring)
    (hok : (do
        let angles ← huskEdgeAngles g H br R
        let h := angles.foldl (fun h oa => pushPt h oa.1 (.vertex oa.2)) H
        let h := { h with ring := some R }
        .ok { h with ringId := h.ringId + 1 } : Except Err Husk)
      = .ok h2) :
    h2.branches = H.branches := by
  rcases ha : huskEdgeAngles g H br R with e | angles
  · rw [ha, exc_bind_err] at hok
    exact Except.noConfusion hok
  · rw [ha] at hok
    simp only [exc_bind_ok] at hok
    cases hok
    exact pushPt_fold_branches angles H

theorem branch_ok_removed (g : Geom) (h h2 : Husk) (lbl : String)
    (ax : Option V3) (hok : branch g h lbl ax = .ok h2) :
    bmGet h2.branches lbl = none := by
  unfold branch at hok
  rcases hcap : cap h with e | h1
  · rw [hcap, exc_bind_err] at hok
    exact Except.noConfusion hok
  · rw [hcap] at hok
    simp only [exc_bind_ok] at hok
    rcases htake : takeBranch h1 lbl with e | bh
    · rw [htake, exc_bind_err] at hok
      exact Except.noConfusion hok
    · rw [htake] at hok
      simp only [exc_bind_ok] at hok
      rcases hwb : Ring.withBranch g bh.1 bh.2.builder with e | ring0
      · rw [hwb, exc_bind_err] at hok
        exact Except.noConfusion hok
      · rw [hwb] at hok
        simp only [exc_bind_ok] at hok
        have hbr := branchTail_branches g bh.1 bh.2 h2 _ hok
        rw [hbr, takeBranch_ok_branches h1 lbl bh htake]
        exact bmGet_remove h1.branches lbl

theorem branch_absent_fails (g : Geom) (h : Husk) (lbl : String)
    (ax : Option V3) (habs : bmGet h.branches lbl = none) (h2 : Husk)
    (hok : branch g h lbl ax = .ok h2) : False := by
  unfold branch at hok
  rcases hcap : cap h with e | h1
  · rw [hcap, exc_bind_err] at hok
    exact Except.noConfusion hok
  · rw [hcap] at hok
    simp only [exc_bind_ok] at hok
    rw [takeBranch_absent h1 lbl (cap_preserves_absent h lbl habs h1 hcap),
      exc_bind_err] at hok
    exact Except.noConfusion hok

end HK

/-- The `model.rs` generation state exhibiting the divergence: one
accumulated branch `"a"` with two mesh vertices and the two edges
`(0,1)`, `(1,0)` between them. -/
def mdSt3 : MD.Model :=
  { builder := { pos := [⟨1, 0, 0⟩, ⟨1, 0, 0⟩], faces := [] }
    ringId := 0
    xform := Affine.id
    ring := none
    points := []
    branches := [("a", { internal := [V3.zero], edges := [(0, 1), (1, 0)] })] }

/-- The same starting state on the `husk.rs` generation. -/
def hkSt3 : HK.Husk :=
  { builder := { pos := [⟨1, 0, 0⟩, ⟨1, 0, 0⟩], faces := [] }
    ringId := 0
    ring := none
    points := []
    branches := [("a", { internal := [V3.zero], edges := [(0, 1), (1, 0)] })] }

/-- The husk state after entering branch `"a"` once. -/
def hkRes3 : HK.Husk :=
  (HK.branch trivGeom hkSt3 "a" none).toOption.getD HK.Husk.new

/-- C3 (corrected): over the `husk.rs` generation the lifecycle holds:
a successful `branch(label)` leaves the label absent from the mapping;
`branch(label)` never succeeds on a state where the label is absent
(in particular on a never-populated label); hence after one success a
second `branch(label)` always fails.  The `model.rs` generation cited by
the claim violates it (`claim3_counterexample_branch_twice`): its
`branch` only `get`s the accumulator, never removes it. -/
theorem claim3_branch_lifecycle (g : Geom) (lbl : String) :
    (∀ (h h2 : HK.Husk) (ax : Option V3),
       HK.branch g h lbl ax = .ok h2 → bmGet h2.branches lbl = none)
    ∧ (∀ (h : HK.Husk) (ax : Option V3), bmGet h.branches lbl = none →
       ∀ h2, HK.branch g h lbl ax ≠ .ok h2)
    ∧ (∀ (h h2 h3 : HK.Husk) (ax ax2 : Option V3),
       HK.branch g h lbl ax = .ok h2 → HK.branch g h2 lbl ax2 ≠ .ok h3) :=
  ⟨fun h h2 ax hok => HK.branch_ok_removed g h h2 lbl ax hok,
   fun h ax habs h2 hok => HK.branch_absent_fails g h lbl ax habs h2 hok,
   fun h h2 h3 ax ax2 hok hok2 =>
     HK.branch_absent_fails g h2 lbl ax2
       (HK.branch_ok_removed g h h2 lbl ax hok) h3 hok2⟩

set_option maxRecDepth 40000 in
/-- C3 counterexample against the `model.rs` generation: from `mdSt3`,
`Model::branch("a")` succeeds and the accumulator is still in the
mapping afterwards, and a second `branch("a")` on the result succeeds
again — the label is neither removed nor restricted to one entry. -/
theorem claim3_counterexample_branch_twice :
    ((MD.branch trivGeom mdSt3 "a" none).toOption.map
        (fun m2 => (bmGet m2.branches "a").isSome) = some true)
    ∧ (((MD.branch trivGeom mdSt3 "a" none) >>= fun m2 =>
        MD.branch trivGeom m2 "a" none).toOption.isSome = true) := by
  exact ⟨rfl, rfl⟩


set_option maxRecDepth 40000 in
/-- C3 witness: entering branch `"a"` from `hkSt3` succeeds, the label
is gone from the resulting mapping, and a second `branch("a")` cannot
succeed. -/
theorem claim3_witness :
    HK.branch trivGeom hkSt3 "a" none = .ok hkRes3
    ∧ bmGet hkRes3.branches "a" = none
    ∧ ∀ h3, HK.branch trivGeom hkRes3 "a" none ≠ .ok h3 := by
  have hok : HK.branch trivGeom hkSt3 "a" none = .ok hkRes3 := by rfl
  exact ⟨hok,
    (claim3_branch_lifecycle trivGeom "a").1 hkSt3 hkRes3 none hok,
    fun h3 => (claim3_branch_lifecycle trivGeom "a").2.2 hkSt3 hkRes3 h3
      none none hok⟩

/-!
## Claim C1: the band between two consecutive rings

`Model::make_band` pushes the two closing faces unconditionally, so a
successful run over vertex-typed rings emits `(n0-1) + (n1-1) + 2 =
n0 + n1` faces and the final face references both anchor vertices.
`Husk::make_band` guards both closing faces (`pt1 != first1`,
`pt0 != first0`): with two one-point rings the band list is empty, the
anchors never move, and no face at all is emitted.
-/

namespace Hom

theorem list_getLast?_split {α : Type _} :
    ∀ (l : List α) (a : α), l.getLast? = some a → l = l.dropLast ++ [a] := by
  intro l
  induction l with
  | nil =>
    intro a h
    exact Option.noConfusion h
  | cons x xs ih =>
    intro a h
    cases xs with
    | nil =>
      rw [List.getLast?_singleton] at h
      cases h
      rfl
    | cons y ys =>
      rw [List.getLast?_cons_cons] at h
      have h3 := ih a h
      conv_lhs => rw [h3]
      rfl

end Hom

namespace MD

open Hom

/-- A face references a point's mesh vertex at one of its corners. -/
def Face.refsPt (f : Face) (p : Point) : Bool :=
  match p.ptType with
  | .vertex v => f.v0 == v || f.v1 == v || f.v2 == v
  | .branch _ => false

theorem addFace_ok_faces (m m2 : Model) (p0 p1 p2 : Point)
    (smo : Smoothing) (v0 v1 v2 : Nat)
    (h0 : p0.ptType = .vertex v0) (h1 : p1.ptType = .vertex v1)
    (h2 : p2.ptType = .vertex v2)
    (hok : addFace m p0 p1 p2 smo = .ok m2) :
    m2.builder.faces = m.builder.faces ++ [⟨v0, v1, v2, smo⟩] := by
  simp only [addFace, h0, h1, h2, Builder.pushFace] at hok
  by_cases hb : (v0 ≥ m.builder.pos.length ∨ v1 ≥ m.builder.pos.length
      ∨ v2 ≥ m.builder.pos.length)
  · rw [if_pos hb, exc_bind_err] at hok
    exact Except.noConfusion hok
  · rw [if_neg hb, exc_bind_ok] at hok
    cases hok
    rfl

theorem bandLoop_spec (r0id : Nat) (smo : Smoothing) :
    ∀ (l : List Point) (m : Model) (pt1 pt0 : Point)
      (res : Model × Point × Point),
    (∀ p ∈ l, ∃ v, p.ptType = Pt.vertex v) →
    (∃ v, pt1.ptType = Pt.vertex v) →
    (∃ v, pt0.ptType = Pt.vertex v) →
    bandLoop r0id smo m pt1 pt0 l = .ok res →
    (∃ fl, res.1.builder.faces = m.builder.faces ++ fl
      ∧ fl.length = l.length
      ∧ ∀ p ∈ l, ∃ f ∈ fl, Face.refsPt f p = true)
    ∧ (res.2.1 = pt1 ∨ res.2.1 ∈ l)
    ∧ (res.2.2 = pt0 ∨ res.2.2 ∈ l) := by
  intro l
  induction l with
  | nil =>
    intro m pt1 pt0 res _ _ _ hok
    simp only [bandLoop] at hok
    cases hok
    exact ⟨⟨[], by simp, rfl, by simp⟩, Or.inl rfl, Or.inl rfl⟩
  | cons pt rest ih =>
    intro m pt1 pt0 res hl h1 h0 hok
    obtain ⟨v, hv⟩ := hl pt (List.mem_cons_self _ _)
    obtain ⟨v1, hv1⟩ := h1
    obtain ⟨v0, hv0⟩ := h0
    simp only [bandLoop] at hok
    rcases haf : addFace m pt1 pt0 pt smo with e | m2
    · rw [haf, exc_bind_err] at hok
      exact Except.noConfusion hok
    · rw [haf] at hok
      simp only [exc_bind_ok] at hok
      have hface := addFace_ok_faces m m2 pt1 pt0 pt smo v1 v0 v hv1 hv0 hv haf
      by_cases hr : pt.ringId = r0id
      · rw [if_pos hr] at hok
        obtain ⟨⟨fl, hfl, hlen, href⟩, ha1, ha0⟩ :=
          ih m2 pt1 pt res (fun p hp => hl p (List.mem_cons_of_mem _ hp))
            ⟨v1, hv1⟩ ⟨v, hv⟩ hok
        refine ⟨⟨⟨v1, v0, v, smo⟩ :: fl, ?_, by simp [hlen], ?_⟩, ?_, ?_⟩
        · rw [hfl, hface]
          simp
        · intro p hp
          rcases List.mem_cons.1 hp with rfl | hp
          · exact ⟨⟨v1, v0, v, smo⟩, List.mem_cons_self _ _,
              by simp [Face.refsPt, hv]⟩
          · obtain ⟨f, hf, hrf⟩ := href p hp
            exact ⟨f, List.mem_cons_of_mem _ hf, hrf⟩
        · rcases ha1 with h | h
          · exact Or.inl h
          · exact Or.inr (List.mem_cons_of_mem _ h)
        · rcases ha0 with h | h
          · exact Or.inr (h ▸ List.mem_cons_self _ _)
          · exact Or.inr (List.mem_cons_of_mem _ h)
      · rw [if_neg hr] at hok
        obtain ⟨⟨fl, hfl, hlen, href⟩, ha1, ha0⟩ :=
          ih m2 pt pt0 res (fun p hp => hl p (List.mem_cons_of_mem _ hp))
            ⟨v, hv⟩ ⟨v0, hv0⟩ hok
        refine ⟨⟨⟨v1, v0, v, smo⟩ :: fl, ?_, by simp [hlen], ?_⟩, ?_, ?_⟩
        · rw [hfl, hface]
          simp
        · intro p hp
          rcases List.mem_cons.1 hp with rfl | hp
          · exact ⟨⟨v1, v0, v, smo⟩, List.mem_cons_self _ _,
              by simp [Face.refsPt, hv]⟩
          · obtain ⟨f, hf, hrf⟩ := href p hp
            exact ⟨f, List.mem_cons_of_mem _ hf, hrf⟩
        · rcases ha1 with h | h
          · exact Or.inr (h ▸ List.mem_cons_self _ _)
          · exact Or.inr (List.mem_cons_of_mem _ h)
        · rcases ha0 with h | h
          · exact Or.inl h
          · exact Or.inr (List.mem_cons_of_mem _ h)

theorem makeBandTail_spec (r0id : Nat) (smo : Smoothing) (m final : Model)
    (first0 first1 : Point) (band : List Point)
    (hok : (do
        let (m2, pt1, pt0) ← bandLoop r0id smo m first1 first0 band
        let m3 ← addFace m2 pt1 pt0 first1 smo
        addFace m3 first0 first1 pt0 smo : Except Err Model) = .ok final)
    (hband : ∀ p ∈ band, ∃ v, p.ptType = Pt.vertex v)
    (h0 : ∃ v, first0.ptType = Pt.vertex v)
    (h1 : ∃ v, first1.ptType = Pt.vertex v) :
    ∃ fl, final.builder.faces = m.builder.faces ++ fl
      ∧ fl.length = band.length + 2
      ∧ (∀ p ∈ band, ∃ f ∈ fl, Face.refsPt f p = true)
      ∧ ∃ f ∈ fl, Face.refsPt f first0 = true ∧ Face.refsPt f first1 = true := by
  obtain ⟨vf0, hvf0⟩ := h0
  obtain ⟨vf1, hvf1⟩ := h1
  rcases hbl : bandLoop r0id smo m first1 first0 band with e | res
  · rw [hbl, exc_bind_err] at hok
    exact Except.noConfusion hok
  · rw [hbl] at hok
    simp only [exc_bind_ok] at hok
    obtain ⟨m2, pt1, pt0⟩ := res
    dsimp only at hok
    obtain ⟨⟨fl, hfl, hlen, href⟩, ha1, ha0⟩ :=
      bandLoop_spec r0id smo band m first1 first0 (m2, pt1, pt0)
        hband ⟨vf1, hvf1⟩ ⟨vf0, hvf0⟩ hbl
    have h1t : ∃ w, pt1.ptType = Pt.vertex w := by
      rcases ha1 with h | h
      · have h2 : pt1 = first1 := h
        rw [h2]
        exact ⟨vf1, hvf1⟩
      · exact hband _ h
    have h0t : ∃ w, pt0.ptType = Pt.vertex w := by
      rcases ha0 with h | h
      · have h2 : pt0 = first0 := h
        rw [h2]
        exact ⟨vf0, hvf0⟩
      · exact hband _ h
    obtain ⟨w1, hw1⟩ := h1t
    obtain ⟨w0, hw0⟩ := h0t
    rcases haf1 : addFace m2 pt1 pt0 first1 smo with e | m3
    · rw [haf1, exc_bind_err] at hok
      exact Except.noConfusion hok
    · rw [haf1] at hok
      simp only [exc_bind_ok] at hok
      have hface1 := addFace_ok_faces m2 m3 pt1 pt0 first1 smo w1 w0 vf1
        hw1 hw0 hvf1 haf1
      have hface2 := addFace_ok_faces m3 final first0 first1 pt0 smo vf0 vf1 w0
        hvf0 hvf1 hw0 hok
      refine ⟨fl ++ [⟨w1, w0, vf1, smo⟩, ⟨vf0, vf1, w0, smo⟩], ?_, ?_, ?_, ?_⟩
      · rw [hface2, hface1, hfl]
        simp
      · simp [hlen]
      · intro p hp
        obtain ⟨f, hf, hrf⟩ := href p hp
        exact ⟨f, List.mem_append_left _ hf, hrf⟩
      · refine ⟨⟨vf0, vf1, w0, smo⟩, by simp, ?_, ?_⟩
        · simp [Face.refsPt, hvf0]
        · simp [Face.refsPt, hvf1]

theorem ringPoints_vtx (m : Model) (r : Ring) (hs : Nat)
    (hvtx : ∀ p ∈ m.points, ∃ v, p.ptType = Pt.vertex v) :
    ∀ p ∈ ringPoints m r hs, ∃ v, p.ptType = Pt.vertex v := by
  intro p hp
  have hm := (ringPoints_perm m r hs).mem_iff.1 hp
  simp only [List.mem_map, List.mem_filter] at hm
  obtain ⟨q, ⟨hq, _⟩, rfl⟩ := hm
  exact hvtx q hq

end MD

/-- C1 (corrected): over the `model.rs` generation, a successful
`make_band` between two rings whose resolved points are all mesh
vertices emits exactly `n0 + n1` faces (appended to the builder) and
every point of either ring has its vertex referenced by one of them —
each band point by its own strip face, the two anchors by the final
closing face.  The `husk.rs` generation cited alongside emits its two
closing faces only conditionally, so two one-point rings produce no
faces at all (`claim1_counterexample_husk_one_point_rings`). -/
theorem claim1_make_band (m m2 : MD.Model) (ring0 ring1 : MD.Ring)
    (hs0 hs1 : Nat)
    (hhs0 : MD.Ring.halfStep ring0 = .ok hs0)
    (hhs1 : MD.Ring.halfStep ring1 = .ok hs1)
    (hvtx : ∀ p ∈ m.points, ∃ v, p.ptType = Pt.vertex v)
    (hok : MD.makeBand m ring0 ring1 = .ok m2) :
    1 ≤ (MD.ringPoints m ring0 hs1).length
    ∧ 1 ≤ (MD.ringPoints m ring1 hs0).length
    ∧ ∃ fl, m2.builder.faces = m.builder.faces ++ fl
      ∧ fl.length = (MD.ringPoints m ring0 hs1).length
          + (MD.ringPoints m ring1 hs0).length
      ∧ ∀ p, (p ∈ MD.ringPoints m ring0 hs1 ∨ p ∈ MD.ringPoints m ring1 hs0) →
          ∃ f ∈ fl, MD.Face.refsPt f p = true := by
  unfold MD.makeBand at hok
  by_cases hid : ring0.id = ring1.id
  · rw [if_pos hid] at hok
    exact Except.noConfusion hok
  · rw [if_neg hid] at hok
    rw [hhs1] at hok
    simp only [exc_bind_ok] at hok
    rw [hhs0] at hok
    simp only [exc_bind_ok] at hok
    rcases hl0 : (MD.ringPoints m ring0 hs1).getLast? with _ | first0
    · rw [hl0] at hok
      exact Except.noConfusion hok
    · rw [hl0] at hok
      simp only [exc_bind_ok] at hok
      rcases hl1 : (MD.ringPoints m ring1 hs0).getLast? with _ | first1
      · rw [hl1] at hok
        exact Except.noConfusion hok
      · rw [hl1] at hok
        simp only [exc_bind_ok] at hok
        have hsp0 := Hom.list_getLast?_split _ _ hl0
        have hsp1 := Hom.list_getLast?_split _ _ hl1
        have hne0 : (MD.ringPoints m ring0 hs1) ≠ [] := by
          intro hnil
          rw [hnil] at hl0
          exact Option.noConfusion hl0
        have hne1 : (MD.ringPoints m ring1 hs0) ≠ [] := by
          intro hnil
          rw [hnil] at hl1
          exact Option.noConfusion hl1
        have hn0 : 1 ≤ (MD.ringPoints m ring0 hs1).length :=
          List.length_pos.2 hne0
        have hn1 : 1 ≤ (MD.ringPoints m ring1 hs0).length :=
          List.length_pos.2 hne1
        have hf0v : ∃ v, first0.ptType = Pt.vertex v :=
          MD.ringPoints_vtx m ring0 hs1 hvtx first0
            (by rw [hsp0]; exact List.mem_append_right _ (by simp))
        have hf1v : ∃ v, first1.ptType = Pt.vertex v :=
          MD.ringPoints_vtx m ring1 hs0 hvtx first1
            (by rw [hsp1]; exact List.mem_append_right _ (by simp))
        have hbandv : ∀ p ∈ ((Hom.sortPts
            ((MD.ringPoints m ring0 hs1).dropLast
              ++ (MD.ringPoints m ring1 hs0).dropLast)).reverse).reverse,
            ∃ v, p.ptType = Pt.vertex v := by
          intro p hp
          rw [List.reverse_reverse] at hp
          rcases List.mem_append.1 ((Hom.sortPts_perm _).mem_iff.1 hp)
              with h | h
          · exact MD.ringPoints_vtx m ring0 hs1 hvtx p
              (by rw [hsp0]; exact List.mem_append_left _ h)
          · exact MD.ringPoints_vtx m ring1 hs0 hvtx p
              (by rw [hsp1]; exact List.mem_append_left _ h)
        obtain ⟨fl, hfl, hlen, href, f2, hf2, hrf0, hrf1⟩ :=
          MD.makeBandTail_spec ring0.id ring0.smoothingOrDefault m m2
            first0 first1 _ hok hbandv hf0v hf1v
        have hblen : (((Hom.sortPts
            ((MD.ringPoints m ring0 hs1).dropLast
              ++ (MD.ringPoints m ring1 hs0).dropLast)).reverse).reverse).length
            = ((MD.ringPoints m ring0 hs1).length - 1)
              + ((MD.ringPoints m ring1 hs0).length - 1) := by
          simp [List.length_reverse, (Hom.sortPts_perm _).length_eq,
            List.length_dropLast]
        refine ⟨hn0, hn1, fl, hfl, ?_, ?_⟩
        · rw [hlen, hblen]
          omega
        · intro p hp
          rcases hp with hp | hp
          · rw [hsp0] at hp
            rcases List.mem_append.1 hp with hmem | hmem
            · refine href p ?_
              rw [List.reverse_reverse]
              exact (Hom.sortPts_perm _).mem_iff.2 (List.mem_append_left _ hmem)
            · have hpe : p = first0 := by simpa using hmem
              subst hpe
              exact ⟨f2, hf2, hrf0⟩
          · rw [hsp1] at hp
            rcases List.mem_append.1 hp with hmem | hmem
            · refine href p ?_
              rw [List.reverse_reverse]
              exact (Hom.sortPts_perm _).mem_iff.2 (List.mem_append_right _ hmem)
            · have hpe : p = first1 := by simpa using hmem
              subst hpe
              exact ⟨f2, hf2, hrf1⟩

/-- A husk with two resolved one-point rings (ids 0 and 1) ready for
banding. -/
def hkC1 : HK.Husk :=
  { builder := { pos := [⟨1, 0, 0⟩, ⟨1, 0, 0⟩], faces := [] }
    ringId := 2
    ring := none
    points := [⟨0, 0, .vertex 0⟩, ⟨0, 1, .vertex 1⟩]
    branches := [] }

def hkBandR0 : HK.Ring := ⟨none, none, none, [⟨1, none⟩], Affine.id, [], 0⟩

def hkBandR1 : HK.Ring := ⟨none, none, none, [⟨1, none⟩], Affine.id, [], 1⟩

/-- C1 counterexample against the `husk.rs` generation: both rings have
exactly one resolved point (`n0 = n1 = 1`), yet `make_band` succeeds
emitting **zero** faces instead of the claimed `n0 + n1 = 2` — the band
list is empty and both closing faces are skipped by the `pt1 != first1` /
`pt0 != first0` guards, so neither ring vertex is referenced by any
face. -/
theorem claim1_counterexample_husk_one_point_rings :
    (HK.ringPoints hkC1 hkBandR0 180).length = 1
    ∧ (HK.ringPoints hkC1 hkBandR1 180).length = 1
    ∧ (HK.makeBand hkC1 hkBandR0 hkBandR1).toOption.map
        (fun h2 => h2.builder.faces.length) = some 0 := by
  exact ⟨rfl, rfl, rfl⟩

/-- A model with two resolved one-point rings (ids 0 and 1). -/
def mdBandM : MD.Model :=
  { builder := { pos := [⟨1, 0, 0⟩, ⟨1, 0, 0⟩], faces := [] }
    ringId := 2
    xform := Affine.id
    ring := none
    points := [⟨0, 0, .vertex 0⟩, ⟨0, 1, .vertex 1⟩]
    branches := [] }

def mdBandR0 : MD.Ring := ⟨0, none, [⟨1, none⟩], none, none⟩

def mdBandR1 : MD.Ring := ⟨1, none, [⟨1, none⟩], none, none⟩

/-- The model after banding the two rings. -/
def mdBandRes : MD.Model :=
  (MD.makeBand mdBandM mdBandR0 mdBandR1).toOption.getD MD.Model.new

set_option maxRecDepth 40000 in
/-- C1 witness: on the concrete two-ring model the band succeeds with
`1 + 1 = 2` faces appended and both ring vertices referenced. -/
theorem claim1_witness :
    1 ≤ (MD.ringPoints mdBandM mdBandR0 180).length
    ∧ 1 ≤ (MD.ringPoints mdBandM mdBandR1 180).length
    ∧ ∃ fl, mdBandRes.builder.faces = mdBandM.builder.faces ++ fl
      ∧ fl.length = (MD.ringPoints mdBandM mdBandR0 180).length
          + (MD.ringPoints mdBandM mdBandR1 180).length
      ∧ ∀ p, (p ∈ MD.ringPoints mdBandM mdBandR0 180
            ∨ p ∈ MD.ringPoints mdBandM mdBandR1 180) →
          ∃ f ∈ fl, MD.Face.refsPt f p = true := by
  exact claim1_make_band mdBandM mdBandRes mdBandR0 mdBandR1 180 180 rfl rfl
    (by
      intro p hp
      simp only [mdBandM, List.mem_cons, List.not_mem_nil, or_false] at hp
      rcases hp with rfl | rfl
      · exact ⟨0, rfl⟩
      · exact ⟨1, rfl⟩)
    rfl
